import Mathlib

/-!
Verification of the `binarychain` streaming parser and serializer.

This file is a shallow embedding of `src/binarychain/__init__.py`:

* bytes are modelled as `List Nat` (each element intended `< 256`; the code
  never relies on wrap-around, so plain `Nat` is faithful);
* Python exceptions are modelled by `Except Err`, with `Err` distinguishing
  the exception class (`ParseError`, `ValueError`, `RuntimeError`);
* each Python method becomes a Lean function of the same name where Lean
  permits it (`prefix` is a Lean keyword, so the `BinaryChain.prefix` field
  is called `pfx`, and the parser state `IN_PREFIX` is called `inPfx`;
  `_get_prefix` becomes `getPfx` for the same reason);
* the generator `get_chain_items` is modelled as the fully drained item
  list via `runItemsF`, a fuel-indexed loop.  Every productive iteration of
  the source's `while True:` loop consumes at least one buffered byte, so
  `buffer.length + 1` units of fuel always suffice; `runItems` fixes that
  canonical fuel.  Items yielded before an exception is raised are kept,
  and the error is reported in the third component.
-/

inductive Err where
  | parseError (msg : String) : Err
  | valueError (msg : String) : Err
  | runtimeError (msg : String) : Err
deriving DecidableEq

deriving instance DecidableEq for Except

/-- Start of Binary Part marker with length 0 (source: `ZERO_SOP_ORD`). -/
def ZERO_SOP_ORD : Nat := 0x80

/-- End of Chain marker (source: `EOC_ORD`). -/
def EOC_ORD : Nat := 0xFF

/-- Big-endian byte decoding, as `int.from_bytes(bs, "big")`. -/
def fromBytesBE (bs : List Nat) : Nat := bs.foldl (fun a b => a * 256 + b) 0

/-- Big-endian byte encoding of width `w`, as `n.to_bytes(w, "big")`. -/
def toBytesBE : Nat → Nat → List Nat
  | 0, _ => []
  | w + 1, n => toBytesBE w (n / 256) ++ [n % 256]

/-- The source's `BYTE_LENGTHS_MAP`: widths 1..8 with their maximal values. -/
def BYTE_LENGTHS_MAP : List (Nat × Nat) :=
  [(1, 255), (2, 65535), (3, 16777215), (4, 4294967295),
   (5, 1099511627775), (6, 281474976710655),
   (7, 72057594037927935), (8, 18446744073709551615)]

def MAX_LENGTH_SIZE : Nat := 8

/-- Maximal length encodable in 8 big-endian bytes, `2^64 - 1`. -/
def MAX64V : Nat := 18446744073709551615

/-- The linear scan of `BYTE_LENGTHS_MAP` in `create_part_length`. -/
def findWidth : List (Nat × Nat) → Nat → Option Nat
  | [], _ => none
  | (num_bytes, max_value) :: rest, n =>
    if n ≤ max_value then some num_bytes else findWidth rest n

/-- Source `create_part_length`: SOP byte plus minimal big-endian length field.
The argument is `Int` because the source checks for negative input. -/
def create_part_length (length_of_part : Int) : Except Err (List Nat) :=
  if length_of_part < 0 then
    .error (.valueError "out of range - part_length must be non-negative")
  else if length_of_part = 0 then
    .ok [ZERO_SOP_ORD]
  else
    match findWidth BYTE_LENGTHS_MAP length_of_part.toNat with
    | some num_bytes =>
        .ok ((ZERO_SOP_ORD + num_bytes) :: toBytesBE num_bytes length_of_part.toNat)
    | none => .error (.valueError "out of range - value too large")

/-- In-memory chain value.  The source's `prefix : str` (ASCII) is modelled
as its list of character codes `pfx` (`prefix` is a Lean keyword). -/
structure BinaryChain where
  pfx : List Nat
  parts : List (List Nat)
deriving DecidableEq

/-- Serialisation of the parts: `create_part_length(len(part)) || part` each. -/
def serialise_parts : List (List Nat) → Except Err (List Nat)
  | [] => .ok []
  | p :: rest =>
    match create_part_length (p.length : Int) with
    | .error e => .error e
    | .ok lenB =>
      match serialise_parts rest with
      | .error e => .error e
      | .ok restB => .ok (lenB ++ p ++ restB)

/-- Source `BinaryChain.serialise`: ASCII prefix bytes, encoded parts, EOC.
`prefix.encode("ascii")` fails on a byte `≥ 0x80` (the constructor already
rejects such prefixes with `ValueError`). -/
def BinaryChain.serialise (bc : BinaryChain) : Except Err (List Nat) :=
  if bc.pfx.all (fun b => b < 0x80) then
    match serialise_parts bc.parts with
    | .ok body => .ok (bc.pfx ++ body ++ [EOC_ORD])
    | .error e => .error e
  else .error (.valueError "Prefix must be an ascii string")

/-- Parser phase (source `IN_PREFIX` / `IN_PART_LENGTH` / `IN_BINARY_PART`). -/
inductive PState where
  | inPfx : PState
  | inPartLength : PState
  | inBinaryPart : PState
deriving DecidableEq

/-- One fragment yielded by `get_chain_items`: a prefix string, a binary
part, or the `EndOfChainMarker`. -/
inductive ChainItem where
  | pre (s : List Nat) : ChainItem
  | part (b : List Nat) : ChainItem
  | eoc : ChainItem
deriving DecidableEq

def itemLen : ChainItem → Nat
  | .pre s => s.length
  | .part b => b.length
  | .eoc => 0

/-- Full state of a `StreamingChainReader` instance.  The source initialises
`_current_prefix_offset` to 0 and never updates it, so the prefix scan always
restarts from the front of the buffer. -/
structure StreamingChainReader where
  max_part_size : Nat
  max_chain_size : Option Nat
  max_chain_length : Option Nat
  max_prefix_size : Option Nat
  state : PState
  buffer : List Nat
  current_prefix_offset : Nat
  part_length_size : Option Nat
  binary_part_length : Option Nat
  chain_size : Nat
  chain_length : Int
deriving DecidableEq

/-- A freshly constructed `StreamingChainReader` (field initialisation of
`__init__`, after the positivity check on `max_part_size`). -/
def StreamingChainReader.new (max_part_size : Nat)
    (max_chain_size max_chain_length max_prefix_size : Option Nat) :
    StreamingChainReader :=
  ⟨max_part_size, max_chain_size, max_chain_length, max_prefix_size,
   .inPfx, [], 0, none, none, 0, -1⟩

/-- The constructor including its `ValueError` on non-positive
`max_part_size` (`Nat` model: zero). -/
def StreamingChainReader.create (max_part_size : Nat)
    (max_chain_size max_chain_length max_prefix_size : Option Nat) :
    Except Err StreamingChainReader :=
  if max_part_size = 0 then .error (.valueError "max part size must be positive")
  else .ok (StreamingChainReader.new max_part_size max_chain_size max_chain_length max_prefix_size)

/-- Source `_set_state_and_part_length_size_from_sop`; returns the new state
and the `at_end` flag. -/
def set_state_and_part_length_size_from_sop (r : StreamingChainReader)
    (sop_byte : Nat) : Except Err (StreamingChainReader × Bool) :=
  if sop_byte = EOC_ORD then
    .ok ({ r with part_length_size := none, state := .inPfx }, true)
  else if ZERO_SOP_ORD ≤ sop_byte ∧ sop_byte ≤ ZERO_SOP_ORD + MAX_LENGTH_SIZE then
    let pls := sop_byte - ZERO_SOP_ORD
    if pls = 0 then
      .ok ({ r with part_length_size := some pls, binary_part_length := some 0,
                    state := .inBinaryPart }, false)
    else
      .ok ({ r with part_length_size := some pls, state := .inPartLength }, false)
  else .error (.parseError "Invalid start of part byte")

/-- The check `index > self.max_prefix_size` is only performed when a limit
was supplied. -/
def prefixLimitHit : Option Nat → Nat → Bool
  | some m, index => decide (m < index)
  | none, _ => false

/-- The `for index in range(offset, len(buffer))` scan of `_get_prefix`:
it either hits the prefix-size limit (error), finds the first byte `≥ 0x80`
(returning its index), or exhausts the buffer.  The list argument is the
not-yet-scanned slice `buffer[index:]`. -/
def scanPfx (mpre : Option Nat) : List Nat → Nat → Except Err (Option Nat)
  | [], _ => .ok none
  | b :: rest, index =>
    if prefixLimitHit mpre index then .error (.parseError "Prefix too long")
    else if ZERO_SOP_ORD ≤ b then .ok (some index)
    else scanPfx mpre rest (index + 1)

/-- Source `_get_prefix` (renamed: `prefix` is reserved in Lean). -/
def getPfx (r : StreamingChainReader) :
    Except Err (Option ChainItem × Bool × StreamingChainReader) :=
  match scanPfx r.max_prefix_size (r.buffer.drop r.current_prefix_offset)
      r.current_prefix_offset with
  | .error e => .error e
  | .ok none => .ok (none, false, r)
  | .ok (some index) =>
    match set_state_and_part_length_size_from_sop r (r.buffer.getD index 0) with
    | .error e => .error e
    | .ok (r1, at_end) =>
      .ok (some (.pre (r.buffer.take index)), at_end,
           { r1 with buffer := r.buffer.drop (index + 1) })

/-- Source `_read_part_length`. -/
def read_part_length (r : StreamingChainReader) : Except Err StreamingChainReader :=
  match r.part_length_size with
  | none => .error (.runtimeError "Invalid call")
  | some pls =>
    if pls = 0 then .error (.runtimeError "Invalid call")
    else if pls ≤ r.buffer.length then
      let n := fromBytesBE (r.buffer.take pls)
      if r.max_part_size < n then .error (.parseError "Part length too long")
      else .ok { r with buffer := r.buffer.drop pls, state := .inBinaryPart,
                        binary_part_length := some n }
    else .ok r

/-- Source `_get_binary_part`. -/
def get_binary_part (r : StreamingChainReader) :
    Except Err (Option ChainItem × Bool × StreamingChainReader) :=
  match r.binary_part_length with
  | none => .error (.runtimeError "Invalid call when binary_part_length is None")
  | some bpl =>
    if bpl + 1 ≤ r.buffer.length then
      match set_state_and_part_length_size_from_sop r (r.buffer.getD bpl 0) with
      | .error e => .error e
      | .ok (r1, at_end) =>
        .ok (some (.part (r.buffer.take bpl)), at_end,
             { r1 with buffer := r.buffer.drop (bpl + 1) })
    else if r.max_part_size < r.buffer.length then
      .error (.parseError "Binary part too long")
    else .ok (none, false, r)

/-- Source `_get_next_part`. -/
def get_next_part (r : StreamingChainReader) :
    Except Err (Option ChainItem × Bool × StreamingChainReader) :=
  match r.state with
  | .inPfx => getPfx r
  | .inPartLength =>
    match read_part_length r with
    | .error e => .error e
    | .ok r1 =>
      match r1.state with
      | .inBinaryPart => get_binary_part r1
      | _ => .ok (none, false, r1)
  | .inBinaryPart => get_binary_part r

/-- Truthiness test `if self.max_chain_size and size > self.max_chain_size`:
`None` and `0` are both falsy in the source. -/
def limitViolated : Option Nat → Nat → Bool
  | some m, v => decide (m ≠ 0) && decide (m < v)
  | none, _ => false

/-- Same for `max_chain_length`; the running count is an `Int` because it
starts at `-1` (the prefix is not counted). -/
def lengthViolated : Option Nat → Int → Bool
  | some m, v => decide (m ≠ 0) && decide ((m : Int) < v)
  | none, _ => false

/-- The drained `while True:` loop of `get_chain_items`, fuel-indexed.  The
source's message for an over-long chain interpolates the two counts; the
static text "chain too long" stands for it here. -/
def runItemsF : Nat → StreamingChainReader →
    List ChainItem × StreamingChainReader × Option Err
  | 0, r => ([], r, none)
  | fuel + 1, r =>
    match get_next_part r with
    | .error e => ([], r, some e)
    | .ok (none, _, r1) => ([], r1, none)
    | .ok (some item, at_end, r1) =>
      let r2 := { r1 with chain_size := r1.chain_size + itemLen item,
                          chain_length := r1.chain_length + 1 }
      if limitViolated r2.max_chain_size r2.chain_size then
        ([], r2, some (.parseError "chain size too big"))
      else if lengthViolated r2.max_chain_length r2.chain_length then
        ([], r2, some (.parseError "chain too long"))
      else if at_end then
        let r3 := { r2 with chain_size := 0, chain_length := -1 }
        let next := runItemsF fuel r3
        (item :: ChainItem.eoc :: next.1, next.2)
      else
        let next := runItemsF fuel r2
        (item :: next.1, next.2)

/-- The loop with its canonical, always-sufficient fuel. -/
def runItems (r : StreamingChainReader) :
    List ChainItem × StreamingChainReader × Option Err :=
  runItemsF (r.buffer.length + 1) r

/-- Source `get_chain_items`, fully drained: extends the buffer and yields
all currently parseable fragments. -/
def StreamingChainReader.get_chain_items (r : StreamingChainReader)
    (incoming_data : List Nat) :
    List ChainItem × StreamingChainReader × Option Err :=
  if incoming_data = [] then
    ([], r, some (.valueError "incoming data must not be empty"))
  else runItems { r with buffer := r.buffer ++ incoming_data }

/-- Source `StreamingChainReader.complete`. -/
def StreamingChainReader.complete (r : StreamingChainReader) : Bool :=
  decide (r.state = PState.inPfx) && r.buffer.isEmpty

/-- Source `ChainReader`: a streaming reader plus the chain being built. -/
structure ChainReader where
  streaming_chain_reader : StreamingChainReader
  bc : BinaryChain
deriving DecidableEq

/-- Source `ChainReader.__init__`: all three limits are mandatory there and
`max_prefix_size` is left `None`. -/
def ChainReader.new (max_part_size max_chain_size max_chain_length : Nat) :
    ChainReader :=
  ⟨StreamingChainReader.new max_part_size (some max_chain_size)
    (some max_chain_length) none, ⟨[], []⟩⟩

/-- The item dispatch of `get_binary_chains`: a `str` overwrites the prefix,
bytes are appended to the parts, the end marker emits the finished chain. -/
def processItems : BinaryChain → List ChainItem → List BinaryChain × BinaryChain
  | bc, [] => ([], bc)
  | bc, .pre s :: rest => processItems ⟨s, bc.parts⟩ rest
  | bc, .part b :: rest => processItems ⟨bc.pfx, bc.parts ++ [b]⟩ rest
  | bc, .eoc :: rest =>
    let next := processItems ⟨[], []⟩ rest
    (bc :: next.1, next.2)

/-- Source `ChainReader.get_binary_chains`, fully drained. -/
def ChainReader.get_binary_chains (cr : ChainReader) (incoming_data : List Nat) :
    List BinaryChain × ChainReader × Option Err :=
  let res := cr.streaming_chain_reader.get_chain_items incoming_data
  let asm := processItems cr.bc res.1
  (asm.1, ⟨res.2.1, asm.2⟩, res.2.2)

/-- Source `ChainReader.complete`. -/
def ChainReader.complete (cr : ChainReader) : Bool :=
  cr.streaming_chain_reader.complete

/-- Feeding a sequence of chunks to one reader, draining each call; a raised
exception stops the feed (callers must discard the reader). -/
def feedAll : StreamingChainReader → List (List Nat) →
    List ChainItem × StreamingChainReader × Option Err
  | r, [] => ([], r, none)
  | r, c :: rest =>
    match r.get_chain_items c with
    | (items, r1, some e) => (items, r1, some e)
    | (items, r1, none) =>
      let next := feedAll r1 rest
      (items ++ next.1, next.2)

/-- Concatenation-map helper used to state serialised forms. -/
def catMap (f : α → List Nat) : List α → List Nat
  | [] => []
  | x :: xs => f x ++ catMap f xs

/-- Pure (total) form of `create_part_length` for in-range lengths. -/
def encLen (n : Nat) : List Nat :=
  match create_part_length (n : Int) with
  | .ok bs => bs
  | .error _ => []

/-- The wire bytes of one part: encoded length, then payload. -/
def partBytes (p : List Nat) : List Nat := encLen p.length ++ p

/-- The wire bytes of a part list followed by the EOC marker. -/
def partsBytes (ps : List (List Nat)) : List Nat :=
  catMap partBytes ps ++ [EOC_ORD]

/-- The canonical serialised form of a chain. -/
def chainBytes (c : BinaryChain) : List Nat := c.pfx ++ partsBytes c.parts

/-- The canonical serialised form of a chain sequence. -/
def chainsBytes (cs : List BinaryChain) : List Nat := catMap chainBytes cs

/-- The fragment stream a chain parses to. -/
def chainItems (c : BinaryChain) : List ChainItem :=
  ChainItem.pre c.pfx :: (c.parts.map ChainItem.part ++ [ChainItem.eoc])

/-- The fragment stream of a chain sequence. -/
def chainsItems : List BinaryChain → List ChainItem
  | [] => []
  | c :: cs => chainItems c ++ chainsItems cs

/-- The width the `BYTE_LENGTHS_MAP` scan selects for an in-range length. -/
def widthOf (n : Nat) : Nat :=
  if n ≤ 255 then 1
  else if n ≤ 65535 then 2
  else if n ≤ 16777215 then 3
  else if n ≤ 4294967295 then 4
  else if n ≤ 1099511627775 then 5
  else if n ≤ 281474976710655 then 6
  else if n ≤ 72057594037927935 then 7
  else 8

example :
    (ChainReader.new 1024 1024 10).get_binary_chains
      [0x48, 0x69, 0x81, 0x02, 0x01, 0x02, 0xFF] =
    ([⟨[0x48, 0x69], [[0x01, 0x02]]⟩],
     ⟨⟨1024, some 1024, some 10, none, .inPfx, [], 0, none, some 2, 0, -1⟩, ⟨[], []⟩⟩,
     none) := by decide

example : (⟨[0x48], [[0x01], []]⟩ : BinaryChain).serialise =
    .ok [0x48, 0x81, 0x01, 0x01, 0x80, 0xFF] := by decide

example : chainBytes ⟨[0x48], [[0x01], []]⟩ =
    [0x48, 0x81, 0x01, 0x01, 0x80, 0xFF] := by decide

lemma toBytesBE_length (w n : Nat) : (toBytesBE w n).length = w := by
  induction w generalizing n with
  | zero => rfl
  | succ w ih => simp [toBytesBE, ih]

lemma fromBytesBE_append_single (xs : List Nat) (b : Nat) :
    fromBytesBE (xs ++ [b]) = fromBytesBE xs * 256 + b := by
  simp [fromBytesBE, List.foldl_append]

lemma fromBytesBE_toBytesBE (w n : Nat) (h : n < 256 ^ w) :
    fromBytesBE (toBytesBE w n) = n := by
  induction w generalizing n with
  | zero =>
    simp [pow_zero] at h
    simp [toBytesBE, fromBytesBE, h]
  | succ w ih =>
    have hdiv : n / 256 < 256 ^ w := by
      rw [Nat.div_lt_iff_lt_mul (by norm_num : 0 < 256)]
      calc n < 256 ^ (w + 1) := h
        _ = 256 ^ w * 256 := by ring
    rw [toBytesBE, fromBytesBE_append_single, ih _ hdiv]
    omega

lemma pow256_mono {a b : Nat} (h : a ≤ b) : (256 : Nat) ^ a ≤ 256 ^ b :=
  Nat.pow_le_pow_right (by norm_num) h

lemma widthOf_pos (n : Nat) : 1 ≤ widthOf n := by
  unfold widthOf; split_ifs <;> norm_num

lemma widthOf_le8 (n : Nat) : widthOf n ≤ 8 := by
  unfold widthOf; split_ifs <;> norm_num

lemma lt_pow_widthOf {n : Nat} (h : n ≤ MAX64V) : n < 256 ^ widthOf n := by
  rw [MAX64V] at h
  unfold widthOf
  split_ifs with h1 h2 h3 h4 h5 h6 h7 <;> norm_num <;> omega

lemma widthOf_min {n w' : Nat} (hw1 : 1 ≤ w') (hw2 : n ≤ 256 ^ w' - 1) :
    widthOf n ≤ w' := by
  have hpow : n < 256 ^ w' := by
    have : 0 < (256 : Nat) ^ w' := Nat.pos_pow_of_pos _ (by norm_num)
    omega
  unfold widthOf
  split_ifs with h1 h2 h3 h4 h5 h6 h7
  · exact hw1
  all_goals (by_contra hc; push_neg at hc; interval_cases w' <;> norm_num at hpow <;> omega)

lemma findWidth_eq {n : Nat} (h : n ≤ MAX64V) :
    findWidth BYTE_LENGTHS_MAP n = some (widthOf n) := by
  rw [MAX64V] at h
  simp only [BYTE_LENGTHS_MAP, findWidth, widthOf]
  split_ifs <;> first | rfl | omega

lemma findWidth_none {n : Nat} (h : MAX64V < n) :
    findWidth BYTE_LENGTHS_MAP n = none := by
  rw [MAX64V] at h
  simp only [BYTE_LENGTHS_MAP, findWidth]
  split_ifs <;> first | rfl | omega

lemma create_part_length_zero : create_part_length 0 = .ok [ZERO_SOP_ORD] := by
  simp [create_part_length]

lemma create_part_length_pos {n : Nat} (h1 : 1 ≤ n) (h2 : n ≤ MAX64V) :
    create_part_length (n : Int) =
      .ok ((ZERO_SOP_ORD + widthOf n) :: toBytesBE (widthOf n) n) := by
  unfold create_part_length
  have hneg : ¬ ((n : Int) < 0) := by omega
  have hzero : ¬ ((n : Int) = 0) := by omega
  simp only [if_neg hneg, if_neg hzero, Int.toNat_natCast, findWidth_eq h2]

lemma encLen_eq {n : Nat} (h1 : 1 ≤ n) (h2 : n ≤ MAX64V) :
    encLen n = (ZERO_SOP_ORD + widthOf n) :: toBytesBE (widthOf n) n := by
  simp [encLen, create_part_length_pos h1 h2]

lemma encLen_zero : encLen 0 = [ZERO_SOP_ORD] := by
  simp [encLen, create_part_length_zero]

/-- C6: `create_part_length 0` is the single byte `0x80`, and for every
`n` with `1 ≤ n ≤ 2^64 - 1` the result is `0x80 + w` followed by the
`w`-byte big-endian encoding of `n`, where `w ∈ {1..8}` is the unique
smallest width with `n ≤ 256^w - 1`. -/
theorem C6_minimal_width_encoding :
    create_part_length 0 = .ok [0x80] ∧
    ∀ n : Nat, 1 ≤ n → n ≤ 2 ^ 64 - 1 →
      ∃ w, create_part_length (n : Int) = .ok ((0x80 + w) :: toBytesBE w n) ∧
        (toBytesBE w n).length = w ∧ 1 ≤ w ∧ w ≤ 8 ∧ n ≤ 256 ^ w - 1 ∧
        ∀ w', 1 ≤ w' → n ≤ 256 ^ w' - 1 → w ≤ w' := by
  constructor
  · exact create_part_length_zero
  · intro n h1 h2
    have h2' : n ≤ MAX64V := by rw [MAX64V]; omega
    refine ⟨widthOf n, create_part_length_pos h1 h2', toBytesBE_length _ _,
      widthOf_pos n, widthOf_le8 n, ?_, fun w' hw1 hw2 => widthOf_min hw1 hw2⟩
    have := lt_pow_widthOf h2'
    omega

/-- Witness for C6 at the width-1/width-2 boundary `n = 256`. -/
theorem C6_minimal_width_encoding_witness :
    ∃ w, create_part_length ((256 : Nat) : Int) = .ok ((0x80 + w) :: toBytesBE w 256) ∧
      (toBytesBE w 256).length = w ∧ 1 ≤ w ∧ w ≤ 8 ∧ 256 ≤ 256 ^ w - 1 ∧
      ∀ w', 1 ≤ w' → 256 ≤ 256 ^ w' - 1 → w ≤ w' :=
  C6_minimal_width_encoding.2 256 (by norm_num) (by norm_num)

/-- C7: `create_part_length` returns normally exactly for arguments in
`[0, 2^64 - 1]`, and raises the encoding error otherwise. -/
theorem C7_length_encoding_range :
    ∀ z : Int, (∃ bs, create_part_length z = .ok bs) ↔ (0 ≤ z ∧ z ≤ 2 ^ 64 - 1) := by
  intro z
  constructor
  · rintro ⟨bs, hbs⟩
    unfold create_part_length at hbs
    split_ifs at hbs with hneg hzero
    · omega
    · constructor
      · omega
      · rcases Nat.lt_or_ge MAX64V z.toNat with hgt | hle
        · rw [findWidth_none hgt] at hbs
          exact absurd hbs (by simp)
        · rw [MAX64V] at hle; omega
  · rintro ⟨hge, hle⟩
    by_cases hzero : z = 0
    · subst hzero
      exact ⟨[ZERO_SOP_ORD], create_part_length_zero⟩
    · have hneg : ¬ z < 0 := by omega
      have hle' : z.toNat ≤ MAX64V := by rw [MAX64V]; omega
      unfold create_part_length
      rw [if_neg hneg, if_neg hzero, findWidth_eq hle']
      exact ⟨_, rfl⟩

/-- C9: the single byte `0xFF` parses to exactly one chain with empty
prefix and no parts, the reader is complete afterwards, and serialising
that chain gives back exactly `0xFF`. -/
theorem C9_empty_chain :
    ((ChainReader.new 1024 1024 10).get_binary_chains [0xFF]).1 = [⟨[], []⟩] ∧
    ((ChainReader.new 1024 1024 10).get_binary_chains [0xFF]).2.2 = none ∧
    ((ChainReader.new 1024 1024 10).get_binary_chains [0xFF]).2.1.complete = true ∧
    (⟨[], []⟩ : BinaryChain).serialise = .ok [0xFF] := by decide

/-- C10: the parser accepts non-minimally encoded length fields:
`0x82 0x00 0x05` introduces a 5-byte part exactly as `0x81 0x05` does, so two
distinct byte streams parse to equal chains, and re-serialising the parsed
chain reproduces only the minimal form. -/
theorem C10_non_minimal_length_accepted :
    ((ChainReader.new 10 0 0).get_binary_chains
        [0x81, 0x05, 1, 2, 3, 4, 5, 0xFF]).1 = [⟨[], [[1, 2, 3, 4, 5]]⟩] ∧
    ((ChainReader.new 10 0 0).get_binary_chains
        [0x82, 0x00, 0x05, 1, 2, 3, 4, 5, 0xFF]).1 = [⟨[], [[1, 2, 3, 4, 5]]⟩] ∧
    ((ChainReader.new 10 0 0).get_binary_chains
        [0x81, 0x05, 1, 2, 3, 4, 5, 0xFF]).2.2 = none ∧
    ((ChainReader.new 10 0 0).get_binary_chains
        [0x82, 0x00, 0x05, 1, 2, 3, 4, 5, 0xFF]).2.2 = none ∧
    ([0x81, 0x05, 1, 2, 3, 4, 5, 0xFF] : List Nat) ≠
      [0x82, 0x00, 0x05, 1, 2, 3, 4, 5, 0xFF] ∧
    (⟨[], [[1, 2, 3, 4, 5]]⟩ : BinaryChain).serialise =
      .ok [0x81, 0x05, 1, 2, 3, 4, 5, 0xFF] := by decide

/-- Counterexample to C3: with `max_chain_length = 0` supplied, the source's
truthiness test `if self.max_chain_length and ...` disables the check, so a
chain containing one part is accepted without any `ParseError`. -/
theorem C3_zero_chain_length_not_enforced :
    ((StreamingChainReader.new 1 none (some 0) none).get_chain_items
        [0x80, 0xFF]).2.2 = none ∧
    ((StreamingChainReader.new 1 none (some 0) none).get_chain_items
        [0x80, 0xFF]).1 = [.pre [], .part [], .eoc] := by decide

/-- Counterexample to C4: with `max_prefix_size = 1` and `m + 1 = 2` literal
bytes buffered (no control byte), the call returns without raising: the scan
only errors once it reaches index `m + 1`, which needs `m + 2` buffered
bytes. -/
theorem C4_two_literal_bytes_no_error :
    ((StreamingChainReader.new 1 none none (some 1)).get_chain_items
        [0x41, 0x42]).2.2 = none ∧
    ((StreamingChainReader.new 1 none none (some 1)).get_chain_items
        [0x41, 0x42]).1 = [] := by decide

/-- Counterexample to C5: `_chain_size` counts the prefix fragment, so a
chain whose prefix alone (4 bytes) exceeds `max_chain_size = 3` is rejected
even though its parts total 0 bytes. -/
theorem C5_prefix_counts_toward_chain_size :
    ((StreamingChainReader.new 1 (some 3) none none).get_chain_items
        [0x61, 0x61, 0x61, 0x61, 0xFF]).2.2 =
      some (.parseError "chain size too big") ∧
    ((StreamingChainReader.new 1 (some 3) none none).get_chain_items
        [0x61, 0x61, 0x61, 0x61, 0xFF]).1 = [] := by decide

lemma take_len_append (a b : List Nat) : (a ++ b).take a.length = a := by
  induction a with
  | nil => rfl
  | cons x xs ih => simp [ih]

lemma drop_len_append (a b : List Nat) : (a ++ b).drop a.length = b := by
  induction a with
  | nil => rfl
  | cons x xs ih => simp [ih]

lemma getD_len_append (a b : List Nat) (c : Nat) :
    (a ++ c :: b).getD a.length 0 = c := by
  induction a with
  | nil => rfl
  | cons x xs ih => simpa using ih

lemma take_le_append {n : Nat} (a b : List Nat) (h : n ≤ a.length) :
    (a ++ b).take n = a.take n := by
  induction a generalizing n with
  | nil => simp_all
  | cons x xs ih =>
    cases n with
    | zero => rfl
    | succ m => simp_all

lemma drop_le_append {n : Nat} (a b : List Nat) (h : n ≤ a.length) :
    (a ++ b).drop n = a.drop n ++ b := by
  induction a generalizing n with
  | nil => simp_all
  | cons x xs ih =>
    cases n with
    | zero => rfl
    | succ m => simp_all

lemma prefixLimitHit_mono {mpre : Option Nat} {j k : Nat} (h : j ≤ k)
    (hk : prefixLimitHit mpre k = false) : prefixLimitHit mpre j = false := by
  cases mpre <;> simp_all [prefixLimitHit] <;> omega

lemma scanPfx_append_literal (mpre : Option Nat) (lit rest : List Nat) (i : Nat)
    (hlit : ∀ b ∈ lit, b < ZERO_SOP_ORD)
    (hhit : ∀ j, j < i + lit.length → prefixLimitHit mpre j = false) :
    scanPfx mpre (lit ++ rest) i = scanPfx mpre rest (i + lit.length) := by
  induction lit generalizing i with
  | nil => simp
  | cons b bs ih =>
    have hb : b < ZERO_SOP_ORD := hlit b (by simp)
    have hhit0 : prefixLimitHit mpre i = false :=
      hhit i (by simp only [List.length_cons]; omega)
    have h1 : ¬(prefixLimitHit mpre i = true) := by simp [hhit0]
    have h2 : ¬(ZERO_SOP_ORD ≤ b) := Nat.not_le.mpr hb
    simp only [List.cons_append, scanPfx, if_neg h1, if_neg h2, List.append_eq]
    rw [ih (i + 1) (fun x hx => hlit x (List.mem_cons_of_mem _ hx))
      (fun j hj => hhit j (by simp only [List.length_cons] at hj ⊢; omega))]
    congr 1
    simp only [List.length_cons]
    omega

lemma scanPfx_literal_none (mpre : Option Nat) (buf : List Nat) (i : Nat)
    (hlit : ∀ b ∈ buf, b < ZERO_SOP_ORD)
    (hhit : ∀ j, j < i + buf.length → prefixLimitHit mpre j = false) :
    scanPfx mpre buf i = .ok none := by
  have := scanPfx_append_literal mpre buf [] i hlit hhit
  simpa [scanPfx] using this

lemma scanPfx_found (mpre : Option Nat) (lit : List Nat) (c : Nat) (rest : List Nat)
    (i : Nat) (hlit : ∀ b ∈ lit, b < ZERO_SOP_ORD)
    (hhit : ∀ j, j ≤ i + lit.length → prefixLimitHit mpre j = false)
    (hc : ZERO_SOP_ORD ≤ c) :
    scanPfx mpre (lit ++ c :: rest) i = .ok (some (i + lit.length)) := by
  rw [scanPfx_append_literal mpre lit (c :: rest) i hlit
    (fun j hj => hhit j (by omega))]
  rw [scanPfx, hhit _ (le_refl _)]
  simp [hc]

lemma scanPfx_hit_error (mpre : Option Nat) (lit rest : List Nat) (i : Nat)
    (hlit : ∀ b ∈ lit, b < ZERO_SOP_ORD)
    (hbelow : ∀ j, j < i + lit.length → prefixLimitHit mpre j = false)
    (hat : prefixLimitHit mpre (i + lit.length) = true)
    (hrest : rest ≠ []) :
    scanPfx mpre (lit ++ rest) i = .error (.parseError "Prefix too long") := by
  rw [scanPfx_append_literal mpre lit rest i hlit hbelow]
  cases rest with
  | nil => exact absurd rfl hrest
  | cons d ds => rw [scanPfx, hat]; rfl

lemma setSop_eoc (r : StreamingChainReader) :
    set_state_and_part_length_size_from_sop r EOC_ORD =
      .ok ({ r with part_length_size := none, state := .inPfx }, true) := rfl

lemma setSop_sop0 (r : StreamingChainReader) :
    set_state_and_part_length_size_from_sop r ZERO_SOP_ORD =
      .ok ({ r with part_length_size := some 0, binary_part_length := some 0,
                    state := .inBinaryPart }, false) := rfl

lemma setSop_sopk (r : StreamingChainReader) (k : Nat) (h1 : 1 ≤ k) (h8 : k ≤ 8) :
    set_state_and_part_length_size_from_sop r (ZERO_SOP_ORD + k) =
      .ok ({ r with part_length_size := some k, state := .inPartLength }, false) := by
  unfold set_state_and_part_length_size_from_sop
  rw [if_neg (by simp only [ZERO_SOP_ORD, EOC_ORD]; omega),
    if_pos (by simp only [ZERO_SOP_ORD, MAX_LENGTH_SIZE]; omega),
    if_neg (by simp only [ZERO_SOP_ORD]; omega)]
  simp only [ZERO_SOP_ORD]
  norm_num

lemma setSop_invalid (r : StreamingChainReader) (c : Nat) (h1 : 0x89 ≤ c)
    (h2 : c ≤ 0xFE) :
    set_state_and_part_length_size_from_sop r c =
      .error (.parseError "Invalid start of part byte") := by
  unfold set_state_and_part_length_size_from_sop
  rw [if_neg (by simp only [EOC_ORD]; omega),
    if_neg (by simp only [ZERO_SOP_ORD, MAX_LENGTH_SIZE]; omega)]

lemma drop_len_append_cons (a : List Nat) (c : Nat) (b : List Nat) :
    (a ++ c :: b).drop (a.length + 1) = b := by
  induction a with
  | nil => rfl
  | cons x xs ih => simpa using ih

lemma getPfx_found (r : StreamingChainReader) (lit : List Nat) (c : Nat)
    (rest : List Nat) (hoff : r.current_prefix_offset = 0)
    (hbuf : r.buffer = lit ++ c :: rest)
    (hlit : ∀ b ∈ lit, b < ZERO_SOP_ORD)
    (hhit : ∀ j, j ≤ lit.length → prefixLimitHit r.max_prefix_size j = false)
    (hc : ZERO_SOP_ORD ≤ c) :
    getPfx r = match set_state_and_part_length_size_from_sop r c with
      | .error e => .error e
      | .ok (r1, at_end) => .ok (some (.pre lit), at_end, { r1 with buffer := rest }) := by
  have hscan : scanPfx r.max_prefix_size (lit ++ c :: rest) 0 = .ok (some lit.length) := by
    simpa using scanPfx_found r.max_prefix_size lit c rest 0 hlit
      (fun j hj => hhit j (by omega)) hc
  have hgd : (lit ++ c :: rest).getD lit.length 0 = c := getD_len_append lit rest c
  have ht : (lit ++ c :: rest).take lit.length = lit := take_len_append lit (c :: rest)
  have hd : (lit ++ c :: rest).drop (lit.length + 1) = rest := drop_len_append_cons lit c rest
  cases hs : set_state_and_part_length_size_from_sop r c with
  | error e =>
    simp only [getPfx, hoff, hbuf, List.drop_zero, hscan, hgd, ht, hd, hs]
  | ok v =>
    rcases v with ⟨r1, at_end⟩
    simp only [getPfx, hoff, hbuf, List.drop_zero, hscan, hgd, ht, hd, hs]

lemma getPfx_none (r : StreamingChainReader) (hoff : r.current_prefix_offset = 0)
    (hlit : ∀ b ∈ r.buffer, b < ZERO_SOP_ORD)
    (hhit : ∀ j, j < r.buffer.length → prefixLimitHit r.max_prefix_size j = false) :
    getPfx r = .ok (none, false, r) := by
  have hscan : scanPfx r.max_prefix_size r.buffer 0 = .ok none :=
    scanPfx_literal_none r.max_prefix_size r.buffer 0 hlit (fun j hj => hhit j (by omega))
  simp only [getPfx, hoff, List.drop_zero, hscan]

lemma getPfx_hit_error (r : StreamingChainReader) (lit rest : List Nat)
    (hoff : r.current_prefix_offset = 0)
    (hbuf : r.buffer = lit ++ rest)
    (hlit : ∀ b ∈ lit, b < ZERO_SOP_ORD)
    (hbelow : ∀ j, j < lit.length → prefixLimitHit r.max_prefix_size j = false)
    (hat : prefixLimitHit r.max_prefix_size lit.length = true)
    (hrest : rest ≠ []) :
    getPfx r = .error (.parseError "Prefix too long") := by
  have hscan : scanPfx r.max_prefix_size (lit ++ rest) 0 =
      .error (.parseError "Prefix too long") :=
    scanPfx_hit_error r.max_prefix_size lit rest 0 hlit
      (fun j hj => hbelow j (by omega)) (by simpa using hat) hrest
  simp only [getPfx, hoff, hbuf, List.drop_zero, hscan]

lemma read_part_length_ok (r : StreamingChainReader) (w : Nat) (lb rest : List Nat)
    (hpls : r.part_length_size = some w) (hw : w ≠ 0)
    (hbuf : r.buffer = lb ++ rest) (hlb : lb.length = w)
    (hn : fromBytesBE lb ≤ r.max_part_size) :
    read_part_length r = .ok { r with buffer := rest, state := .inBinaryPart,
                                      binary_part_length := some (fromBytesBE lb) } := by
  have hlen : w ≤ r.buffer.length := by rw [hbuf]; simp [← hlb]
  have ht : r.buffer.take w = lb := by rw [hbuf, ← hlb, take_len_append]
  have hd : r.buffer.drop w = rest := by rw [hbuf, ← hlb, drop_len_append]
  simp only [read_part_length, hpls, if_neg hw, if_pos hlen, ht, hd,
    if_neg (by omega : ¬ r.max_part_size < fromBytesBE lb)]

lemma read_part_length_too_long (r : StreamingChainReader) (w : Nat)
    (lb rest : List Nat)
    (hpls : r.part_length_size = some w) (hw : w ≠ 0)
    (hbuf : r.buffer = lb ++ rest) (hlb : lb.length = w)
    (hn : r.max_part_size < fromBytesBE lb) :
    read_part_length r = .error (.parseError "Part length too long") := by
  have hlen : w ≤ r.buffer.length := by rw [hbuf]; simp [← hlb]
  have ht : r.buffer.take w = lb := by rw [hbuf, ← hlb, take_len_append]
  simp only [read_part_length, hpls, if_neg hw, if_pos hlen, ht, if_pos hn]

lemma read_part_length_suspend (r : StreamingChainReader) (w : Nat)
    (hpls : r.part_length_size = some w) (hw : w ≠ 0)
    (hlen : r.buffer.length < w) :
    read_part_length r = .ok r := by
  simp only [read_part_length, hpls, if_neg hw,
    if_neg (by omega : ¬ w ≤ r.buffer.length)]

lemma get_binary_part_found (r : StreamingChainReader) (n : Nat) (p : List Nat)
    (c : Nat) (rest : List Nat)
    (hbpl : r.binary_part_length = some n)
    (hbuf : r.buffer = p ++ c :: rest) (hp : p.length = n) :
    get_binary_part r = match set_state_and_part_length_size_from_sop r c with
      | .error e => .error e
      | .ok (r1, at_end) => .ok (some (.part p), at_end, { r1 with buffer := rest }) := by
  have hlen : n + 1 ≤ r.buffer.length := by rw [hbuf]; simp [← hp]
  have hgd : r.buffer.getD n 0 = c := by rw [hbuf, ← hp]; exact getD_len_append p rest c
  have ht : r.buffer.take n = p := by rw [hbuf, ← hp, take_len_append]
  have hd : r.buffer.drop (n + 1) = rest := by
    rw [hbuf, ← hp]
    exact drop_len_append_cons p c rest
  cases hs : set_state_and_part_length_size_from_sop r c with
  | error e =>
    simp only [get_binary_part, hbpl, if_pos hlen, hgd, ht, hd, hs]
  | ok v =>
    rcases v with ⟨r1, at_end⟩
    simp only [get_binary_part, hbpl, if_pos hlen, hgd, ht, hd, hs]

lemma get_binary_part_suspend (r : StreamingChainReader) (n : Nat)
    (hbpl : r.binary_part_length = some n)
    (hlen : r.buffer.length < n + 1)
    (hmps : r.buffer.length ≤ r.max_part_size) :
    get_binary_part r = .ok (none, false, r) := by
  simp only [get_binary_part, hbpl, if_neg (by omega : ¬ n + 1 ≤ r.buffer.length),
    if_neg (by omega : ¬ r.max_part_size < r.buffer.length)]

lemma gnp_pfx (r : StreamingChainReader) (hst : r.state = .inPfx) :
    get_next_part r = getPfx r := by
  unfold get_next_part
  rw [hst]

lemma gnp_bin (r : StreamingChainReader) (hst : r.state = .inBinaryPart) :
    get_next_part r = get_binary_part r := by
  unfold get_next_part
  rw [hst]

lemma runItemsF_error (f : Nat) (r : StreamingChainReader) (e : Err)
    (h : get_next_part r = .error e) :
    runItemsF (f + 1) r = ([], r, some e) := by
  simp only [runItemsF, h]

lemma runItemsF_none (f : Nat) (r r1 : StreamingChainReader) (b : Bool)
    (h : get_next_part r = .ok (none, b, r1)) :
    runItemsF (f + 1) r = ([], r1, none) := by
  simp only [runItemsF, h]

lemma scanPfx_some_lt (mpre : Option Nat) (l : List Nat) (i idx : Nat)
    (h : scanPfx mpre l i = .ok (some idx)) : i ≤ idx ∧ idx < i + l.length := by
  induction l generalizing i with
  | nil => simp [scanPfx] at h
  | cons b bs ih =>
    rw [scanPfx] at h
    split_ifs at h with h1 h2
    · simp at h
      constructor
      · omega
      · simp [← h]
    · have := ih (i + 1) h
      simp only [List.length_cons]
      omega

lemma getPfx_some_dec (r r1 : StreamingChainReader) (item : ChainItem) (b : Bool)
    (h : getPfx r = .ok (some item, b, r1)) :
    r1.buffer.length < r.buffer.length := by
  simp only [getPfx] at h
  cases hscan : scanPfx r.max_prefix_size (r.buffer.drop r.current_prefix_offset)
      r.current_prefix_offset with
  | error e => simp [hscan] at h
  | ok o =>
    cases o with
    | none => simp [hscan] at h
    | some idx =>
      simp only [hscan, List.getD_eq_getElem?_getD] at h
      cases hs : set_state_and_part_length_size_from_sop r (r.buffer[idx]?.getD 0) with
      | error e => simp [hs] at h
      | ok v =>
        rcases v with ⟨r2, at_end⟩
        rw [hs] at h
        simp only [Except.ok.injEq, Prod.mk.injEq] at h
        have hb : r1.buffer = r.buffer.drop (idx + 1) := by rw [← h.2.2]
        have hlt := scanPfx_some_lt _ _ _ _ hscan
        simp only [List.length_drop] at hlt
        rw [hb]
        simp only [List.length_drop]
        omega

lemma get_binary_part_some_dec (r r1 : StreamingChainReader) (item : ChainItem)
    (b : Bool) (h : get_binary_part r = .ok (some item, b, r1)) :
    r1.buffer.length < r.buffer.length := by
  simp only [get_binary_part] at h
  cases hbpl : r.binary_part_length with
  | none => simp [hbpl] at h
  | some n =>
    simp only [hbpl] at h
    split_ifs at h with h1 h2
    · simp only [List.getD_eq_getElem?_getD] at h
      cases hs : set_state_and_part_length_size_from_sop r (r.buffer[n]?.getD 0) with
      | error e => simp [hs] at h
      | ok v =>
        rcases v with ⟨r2, at_end⟩
        rw [hs] at h
        simp only [Except.ok.injEq, Prod.mk.injEq] at h
        have hb : r1.buffer = r.buffer.drop (n + 1) := by rw [← h.2.2]
        rw [hb]
        simp only [List.length_drop]
        omega
    · simp at h

lemma read_part_length_le (r r1 : StreamingChainReader)
    (h : read_part_length r = .ok r1) : r1.buffer.length ≤ r.buffer.length := by
  simp only [read_part_length] at h
  cases hpls : r.part_length_size with
  | none => simp [hpls] at h
  | some w =>
    simp only [hpls] at h
    split_ifs at h with h1 h2 h3
    · simp only [Except.ok.injEq] at h
      subst h
      simp only [List.length_drop]
      omega
    · simp only [Except.ok.injEq] at h
      subst h
      exact le_refl _

lemma get_next_part_some_dec (r r1 : StreamingChainReader) (item : ChainItem)
    (b : Bool) (h : get_next_part r = .ok (some item, b, r1)) :
    r1.buffer.length < r.buffer.length := by
  simp only [get_next_part] at h
  cases hst : r.state with
  | inPfx => rw [hst] at h; exact getPfx_some_dec r r1 item b h
  | inBinaryPart => rw [hst] at h; exact get_binary_part_some_dec r r1 item b h
  | inPartLength =>
    rw [hst] at h
    cases hread : read_part_length r with
    | error e => simp [hread] at h
    | ok r2 =>
      simp only [hread] at h
      cases hst2 : r2.state with
      | inPfx => simp [hst2] at h
      | inPartLength => simp [hst2] at h
      | inBinaryPart =>
        simp only [hst2] at h
        -- if `read_part_length` had left the state unchanged it would still be
        -- `inPartLength`, so it took the consuming branch and dropped `w ≥ 1` bytes
        have hlt : r2.buffer.length < r.buffer.length := by
          simp only [read_part_length] at hread
          cases hpls : r.part_length_size with
          | none => simp [hpls] at hread
          | some w =>
            simp only [hpls] at hread
            split_ifs at hread with h1 h2 h3
            · simp only [Except.ok.injEq] at hread
              subst hread
              simp only [List.length_drop]
              omega
            · simp only [Except.ok.injEq] at hread
              subst hread
              rw [hst] at hst2
              exact absurd hst2 (by simp)
        exact lt_trans (get_binary_part_some_dec r2 r1 item b h) hlt

lemma runItemsF_fuel_irrel : ∀ (f g : Nat) (r : StreamingChainReader),
    r.buffer.length < f → r.buffer.length < g → runItemsF f r = runItemsF g r := by
  intro f
  induction f with
  | zero => intro g r hf hg; exact absurd hf (by omega)
  | succ f ih =>
    intro g r hf hg
    cases g with
    | zero => exact absurd hg (by omega)
    | succ g =>
      cases hstep : get_next_part r with
      | error e => simp only [runItemsF, hstep]
      | ok v =>
        rcases v with ⟨opt, at_end, r1⟩
        cases opt with
        | none => simp only [runItemsF, hstep]
        | some item =>
          have hdec := get_next_part_some_dec r r1 item at_end hstep
          have h2 : runItemsF f { r1 with chain_size := r1.chain_size + itemLen item, chain_length := r1.chain_length + 1 } = runItemsF g { r1 with chain_size := r1.chain_size + itemLen item, chain_length := r1.chain_length + 1 } :=
            ih g _ (by show r1.buffer.length < f; omega) (by show r1.buffer.length < g; omega)
          have h3 : runItemsF f { r1 with chain_size := 0, chain_length := -1 } = runItemsF g { r1 with chain_size := 0, chain_length := -1 } :=
            ih g _ (by show r1.buffer.length < f; omega) (by show r1.buffer.length < g; omega)
          simp only [runItemsF, hstep]
          split_ifs <;> simp [h2, h3]

lemma runItems_error (r : StreamingChainReader) (e : Err)
    (hstep : get_next_part r = .error e) :
    runItems r = ([], r, some e) := by
  simp only [runItems, runItemsF, hstep]

lemma runItems_none (r r1 : StreamingChainReader) (b : Bool)
    (hstep : get_next_part r = .ok (none, b, r1)) :
    runItems r = ([], r1, none) := by
  simp only [runItems, runItemsF, hstep]

lemma runItems_size_err (r r1 : StreamingChainReader) (item : ChainItem)
    (at_end : Bool)
    (hstep : get_next_part r = .ok (some item, at_end, r1))
    (hsz : limitViolated r1.max_chain_size (r1.chain_size + itemLen item) = true) :
    runItems r = ([], { r1 with chain_size := r1.chain_size + itemLen item, chain_length := r1.chain_length + 1 }, some (.parseError "chain size too big")) := by
  simp only [runItems, runItemsF, hstep, hsz, if_true]

lemma runItems_len_err (r r1 : StreamingChainReader) (item : ChainItem)
    (at_end : Bool)
    (hstep : get_next_part r = .ok (some item, at_end, r1))
    (hsz : limitViolated r1.max_chain_size (r1.chain_size + itemLen item) = false)
    (hln : lengthViolated r1.max_chain_length (r1.chain_length + 1) = true) :
    runItems r = ([], { r1 with chain_size := r1.chain_size + itemLen item, chain_length := r1.chain_length + 1 }, some (.parseError "chain too long")) := by
  simp only [runItems, runItemsF, hstep, hsz, hln, Bool.false_eq_true, if_false, if_true]

lemma runItems_step_mid (r r1 : StreamingChainReader) (item : ChainItem)
    (hstep : get_next_part r = .ok (some item, false, r1))
    (hsz : limitViolated r1.max_chain_size (r1.chain_size + itemLen item) = false)
    (hln : lengthViolated r1.max_chain_length (r1.chain_length + 1) = false) :
    runItems r = (item :: (runItems { r1 with chain_size := r1.chain_size + itemLen item, chain_length := r1.chain_length + 1 }).1, (runItems { r1 with chain_size := r1.chain_size + itemLen item, chain_length := r1.chain_length + 1 }).2) := by
  have hdec := get_next_part_some_dec r r1 item false hstep
  have hfi : runItemsF r.buffer.length { r1 with chain_size := r1.chain_size + itemLen item, chain_length := r1.chain_length + 1 } = runItems { r1 with chain_size := r1.chain_size + itemLen item, chain_length := r1.chain_length + 1 } := by
    apply runItemsF_fuel_irrel
    · show r1.buffer.length < r.buffer.length
      omega
    · show r1.buffer.length < r1.buffer.length + 1
      omega
  simp only [runItems, runItemsF, hstep, hsz, hln, Bool.false_eq_true, if_false] at hfi ⊢
  rw [hfi]

lemma runItems_step_end (r r1 : StreamingChainReader) (item : ChainItem)
    (hstep : get_next_part r = .ok (some item, true, r1))
    (hsz : limitViolated r1.max_chain_size (r1.chain_size + itemLen item) = false)
    (hln : lengthViolated r1.max_chain_length (r1.chain_length + 1) = false) :
    runItems r = (item :: ChainItem.eoc :: (runItems { r1 with chain_size := 0, chain_length := -1 }).1, (runItems { r1 with chain_size := 0, chain_length := -1 }).2) := by
  have hdec := get_next_part_some_dec r r1 item true hstep
  have hfi : runItemsF r.buffer.length { r1 with chain_size := 0, chain_length := -1 } = runItems { r1 with chain_size := 0, chain_length := -1 } := by
    apply runItemsF_fuel_irrel
    · show r1.buffer.length < r.buffer.length
      omega
    · show r1.buffer.length < r1.buffer.length + 1
      omega
  simp only [runItems, runItemsF, hstep, hsz, hln, Bool.false_eq_true, if_false, if_true] at hfi ⊢
  rw [hfi]

/-- Parser state between chains: `IN_PREFIX`, empty counters; only the stale
`_binary_part_length` left over from the previous chain varies. -/
def cleanR (mps : Nat) (mcs mcl mpre : Option Nat) (bpl : Option Nat)
    (buf : List Nat) : StreamingChainReader :=
  ⟨mps, mcs, mcl, mpre, .inPfx, buf, 0, none, bpl, 0, -1⟩

/-- The first byte of `create_part_length` for a part `p`. -/
def sopByte (p : List Nat) : Nat :=
  if p.length = 0 then ZERO_SOP_ORD else ZERO_SOP_ORD + widthOf p.length

/-- The length-field bytes of a part `p` (empty for an empty part). -/
def tailEnc (p : List Nat) : List Nat :=
  if p.length = 0 then [] else toBytesBE (widthOf p.length) p.length

/-- Parser state just after the SOP byte of part `p` has been consumed. -/
def partEntryState (mps : Nat) (mcs mcl mpre : Option Nat) (stale : Option Nat)
    (cs : Nat) (cl : Int) (p : List Nat) (buf : List Nat) : StreamingChainReader :=
  if p.length = 0 then
    ⟨mps, mcs, mcl, mpre, .inBinaryPart, buf, 0, some 0, some 0, cs, cl⟩
  else
    ⟨mps, mcs, mcl, mpre, .inPartLength, buf, 0, some (widthOf p.length), stale, cs, cl⟩

def partSizes (ps : List (List Nat)) : Nat := (ps.map List.length).sum

/-- Every part fits the configured limit and the 8-byte length encoding. -/
def PartsFit (mps : Nat) (ps : List (List Nat)) : Prop :=
  ∀ p ∈ ps, p.length ≤ mps ∧ p.length ≤ MAX64V

lemma encLen_decomp {p : List Nat} (h : p.length ≤ MAX64V) :
    encLen p.length = sopByte p :: tailEnc p := by
  by_cases hp : p.length = 0
  · rw [hp, encLen_zero, sopByte, tailEnc, if_pos hp, if_pos hp]
  · rw [encLen_eq (by omega) h, sopByte, tailEnc, if_neg hp, if_neg hp]

lemma partsBytes_cons {p : List Nat} (ps : List (List Nat)) (h : p.length ≤ MAX64V) :
    partsBytes (p :: ps) = sopByte p :: (tailEnc p ++ p ++ partsBytes ps) := by
  simp only [partsBytes, catMap, partBytes, encLen_decomp h, List.cons_append,
    List.append_assoc]

lemma sopByte_ge (p : List Nat) : ZERO_SOP_ORD ≤ sopByte p := by
  unfold sopByte
  split_ifs <;> omega

lemma limitViolated_mono {o : Option Nat} {v V : Nat} (h : v ≤ V)
    (hV : limitViolated o V = false) : limitViolated o v = false := by
  cases o with
  | none => rfl
  | some m =>
    simp only [limitViolated, Bool.and_eq_false_iff, decide_eq_false_iff_not] at hV ⊢
    omega

lemma lengthViolated_mono {o : Option Nat} {v V : Int} (h : v ≤ V)
    (hV : lengthViolated o V = false) : lengthViolated o v = false := by
  cases o with
  | none => rfl
  | some m =>
    simp only [lengthViolated, Bool.and_eq_false_iff, decide_eq_false_iff_not] at hV ⊢
    omega

lemma lengthViolated_nonpos {o : Option Nat} {v : Int} (h : v ≤ 0) :
    lengthViolated o v = false := by
  cases o with
  | none => rfl
  | some m =>
    simp only [lengthViolated, Bool.and_eq_false_iff, decide_eq_false_iff_not]
    omega

lemma gnp_len_to_bin (r : StreamingChainReader) (w : Nat) (lb pprest : List Nat)
    (hst : r.state = .inPartLength) (hpls : r.part_length_size = some w)
    (hw : w ≠ 0) (hbuf : r.buffer = lb ++ pprest) (hlb : lb.length = w)
    (hmps : fromBytesBE lb ≤ r.max_part_size) :
    get_next_part r = get_binary_part { r with buffer := pprest, state := .inBinaryPart, binary_part_length := some (fromBytesBE lb) } := by
  unfold get_next_part
  rw [hst, read_part_length_ok r w lb pprest hpls hw hbuf hlb hmps]

/-- Width of the length field announced by `sopByte p`. -/
def wOf (p : List Nat) : Nat := if p.length = 0 then 0 else widthOf p.length

lemma partEntry_to_bin (mps : Nat) (mcs mcl mpre stale : Option Nat) (cs : Nat)
    (cl : Int) (p rest : List Nat) (hple : p.length ≤ MAX64V)
    (hpmps : p.length ≤ mps) :
    get_next_part (partEntryState mps mcs mcl mpre stale cs cl p (tailEnc p ++ (p ++ rest))) = get_binary_part ⟨mps, mcs, mcl, mpre, .inBinaryPart, p ++ rest, 0, some (wOf p), some p.length, cs, cl⟩ := by
  by_cases hp0 : p.length = 0
  · have hpnil : p = [] := List.length_eq_zero.mp hp0
    subst hpnil
    simp only [partEntryState, tailEnc, wOf, List.length_nil, if_pos rfl, List.nil_append]
    rfl
  · have hw1 : 1 ≤ widthOf p.length := widthOf_pos _
    simp only [partEntryState, tailEnc, wOf, if_neg hp0]
    have hdec : fromBytesBE (toBytesBE (widthOf p.length) p.length) = p.length :=
      fromBytesBE_toBytesBE _ _ (lt_pow_widthOf hple)
    have h := gnp_len_to_bin
      ⟨mps, mcs, mcl, mpre, .inPartLength, toBytesBE (widthOf p.length) p.length ++ (p ++ rest), 0, some (widthOf p.length), stale, cs, cl⟩
      (widthOf p.length) (toBytesBE (widthOf p.length) p.length) (p ++ rest)
      rfl rfl (by omega) rfl (toBytesBE_length _ _) (by rw [hdec]; exact hpmps)
    rw [h, hdec]

lemma runParts : ∀ (ps : List (List Nat)) (p : List Nat) (mps : Nat)
    (mcs mcl mpre stale : Option Nat) (cs : Nat) (cl : Int) (B : List Nat),
    PartsFit mps (p :: ps) →
    limitViolated mcs (cs + partSizes (p :: ps)) = false →
    lengthViolated mcl (cl + ((p :: ps).length : Int)) = false →
    ∃ stale2, runItems (partEntryState mps mcs mcl mpre stale cs cl p (tailEnc p ++ p ++ partsBytes ps ++ B)) = ((p :: ps).map ChainItem.part ++ ChainItem.eoc :: (runItems (cleanR mps mcs mcl mpre stale2 B)).1, (runItems (cleanR mps mcs mcl mpre stale2 B)).2) := by
  intro ps
  induction ps with
  | nil =>
    intro p mps mcs mcl mpre stale cs cl B hfit hsz hln
    have hple : p.length ≤ MAX64V := (hfit p (by simp)).2
    have hpmps : p.length ≤ mps := (hfit p (by simp)).1
    have hsz1 : limitViolated mcs (cs + p.length) = false := by
      apply limitViolated_mono _ hsz
      simp [partSizes]
    have hln1 : lengthViolated mcl (cl + 1) = false := by
      apply lengthViolated_mono _ hln
      simp
    have hbuf : tailEnc p ++ p ++ partsBytes [] ++ B = tailEnc p ++ (p ++ (EOC_ORD :: B)) := by
      simp [partsBytes, catMap, List.append_assoc]
    rw [hbuf]
    have hbin := partEntry_to_bin mps mcs mcl mpre stale cs cl p (EOC_ORD :: B) hple hpmps
    have hfound := get_binary_part_found
      ⟨mps, mcs, mcl, mpre, .inBinaryPart, p ++ EOC_ORD :: B, 0, some (wOf p), some p.length, cs, cl⟩
      p.length p EOC_ORD B rfl rfl rfl
    rw [setSop_eoc] at hfound
    have hstep : get_next_part (partEntryState mps mcs mcl mpre stale cs cl p (tailEnc p ++ (p ++ (EOC_ORD :: B)))) = .ok (some (.part p), true, ⟨mps, mcs, mcl, mpre, .inPfx, B, 0, none, some p.length, cs, cl⟩) := by
      rw [hbin, hfound]
    refine ⟨some p.length, ?_⟩
    rw [runItems_step_end _ _ _ hstep hsz1 hln1]
    simp [cleanR]
  | cons p2 ps' ih =>
    intro p mps mcs mcl mpre stale cs cl B hfit hsz hln
    have hple : p.length ≤ MAX64V := (hfit p (by simp)).2
    have hpmps : p.length ≤ mps := (hfit p (by simp)).1
    have hp2le : p2.length ≤ MAX64V := (hfit p2 (by simp)).2
    have hsz1 : limitViolated mcs (cs + p.length) = false := by
      apply limitViolated_mono _ hsz
      simp [partSizes]
    have hln1 : lengthViolated mcl (cl + 1) = false := by
      apply lengthViolated_mono _ hln
      simp only [List.length_cons]
      push_cast
      omega
    have hbuf : tailEnc p ++ p ++ partsBytes (p2 :: ps') ++ B = tailEnc p ++ (p ++ (sopByte p2 :: (tailEnc p2 ++ p2 ++ partsBytes ps' ++ B))) := by
      rw [partsBytes_cons ps' hp2le]
      simp [List.append_assoc]
    rw [hbuf]
    have hbin := partEntry_to_bin mps mcs mcl mpre stale cs cl p
      (sopByte p2 :: (tailEnc p2 ++ p2 ++ partsBytes ps' ++ B)) hple hpmps
    have hfound := get_binary_part_found
      ⟨mps, mcs, mcl, mpre, .inBinaryPart, p ++ sopByte p2 :: (tailEnc p2 ++ p2 ++ partsBytes ps' ++ B), 0, some (wOf p), some p.length, cs, cl⟩
      p.length p (sopByte p2) (tailEnc p2 ++ p2 ++ partsBytes ps' ++ B) rfl rfl rfl
    -- the IH, at the counters after part `p` is counted
    have hfit' : PartsFit mps (p2 :: ps') := fun q hq => hfit q (by simp [hq])
    have hsz' : limitViolated mcs (cs + p.length + partSizes (p2 :: ps')) = false := by
      apply limitViolated_mono _ hsz
      simp [partSizes]
      omega
    have hln' : lengthViolated mcl (cl + 1 + ((p2 :: ps').length : Int)) = false := by
      apply lengthViolated_mono _ hln
      simp only [List.length_cons]
      push_cast
      omega
    obtain ⟨stale2, hih⟩ := ih p2 mps mcs mcl mpre
      (if p2.length = 0 then some 0 else some p.length) (cs + p.length) (cl + 1) B
      hfit' hsz' hln'
    by_cases hp20 : p2.length = 0
    · rw [if_pos hp20] at hih
      have hsop : sopByte p2 = ZERO_SOP_ORD := by rw [sopByte, if_pos hp20]
      rw [hsop, setSop_sop0] at hfound
      have hstep : get_next_part (partEntryState mps mcs mcl mpre stale cs cl p (tailEnc p ++ (p ++ (sopByte p2 :: (tailEnc p2 ++ p2 ++ partsBytes ps' ++ B))))) = .ok (some (.part p), false, ⟨mps, mcs, mcl, mpre, .inBinaryPart, tailEnc p2 ++ p2 ++ partsBytes ps' ++ B, 0, some 0, some 0, cs, cl⟩) := by
        rw [hbin, hsop, hfound]
      rw [runItems_step_mid _ _ _ hstep hsz1 hln1]
      have hR2 : ({ (⟨mps, mcs, mcl, mpre, .inBinaryPart, tailEnc p2 ++ p2 ++ partsBytes ps' ++ B, 0, some 0, some 0, cs, cl⟩ : StreamingChainReader) with chain_size := cs + itemLen (.part p), chain_length := cl + 1 }) = partEntryState mps mcs mcl mpre (some 0) (cs + p.length) (cl + 1) p2 (tailEnc p2 ++ p2 ++ partsBytes ps' ++ B) := by
        simp only [partEntryState, if_pos hp20]
        rfl
      rw [hR2, hih]
      exact ⟨stale2, by simp⟩
    · rw [if_neg hp20] at hih
      have hw2 : 1 ≤ widthOf p2.length := widthOf_pos _
      have hw2' : widthOf p2.length ≤ 8 := widthOf_le8 _
      have hsop : sopByte p2 = ZERO_SOP_ORD + widthOf p2.length := by
        rw [sopByte, if_neg hp20]
      rw [hsop, setSop_sopk _ _ hw2 hw2'] at hfound
      have hstep : get_next_part (partEntryState mps mcs mcl mpre stale cs cl p (tailEnc p ++ (p ++ (sopByte p2 :: (tailEnc p2 ++ p2 ++ partsBytes ps' ++ B))))) = .ok (some (.part p), false, ⟨mps, mcs, mcl, mpre, .inPartLength, tailEnc p2 ++ p2 ++ partsBytes ps' ++ B, 0, some (widthOf p2.length), some p.length, cs, cl⟩) := by
        rw [hbin, hsop, hfound]
      rw [runItems_step_mid _ _ _ hstep hsz1 hln1]
      have hR2 : ({ (⟨mps, mcs, mcl, mpre, .inPartLength, tailEnc p2 ++ p2 ++ partsBytes ps' ++ B, 0, some (widthOf p2.length), some p.length, cs, cl⟩ : StreamingChainReader) with chain_size := cs + itemLen (.part p), chain_length := cl + 1 }) = partEntryState mps mcs mcl mpre (some p.length) (cs + p.length) (cl + 1) p2 (tailEnc p2 ++ p2 ++ partsBytes ps' ++ B) := by
        simp only [partEntryState, if_neg hp20]
        rfl
      rw [hR2, hih]
      exact ⟨stale2, by simp⟩

lemma runChain (c : BinaryChain) (mps : Nat) (mcs mcl mpre stale : Option Nat)
    (B : List Nat)
    (hpre : ∀ b ∈ c.pfx, b < ZERO_SOP_ORD)
    (hhit : ∀ j, j ≤ c.pfx.length → prefixLimitHit mpre j = false)
    (hfit : PartsFit mps c.parts)
    (hsz : limitViolated mcs (c.pfx.length + partSizes c.parts) = false)
    (hln : lengthViolated mcl ((c.parts.length : Int)) = false) :
    ∃ stale2, runItems (cleanR mps mcs mcl mpre stale (chainBytes c ++ B)) = (chainItems c ++ (runItems (cleanR mps mcs mcl mpre stale2 B)).1, (runItems (cleanR mps mcs mcl mpre stale2 B)).2) := by
  have hsz0 : limitViolated mcs (0 + itemLen (.pre c.pfx)) = false := by
    apply limitViolated_mono _ hsz
    simp [itemLen]
  have hln0 : lengthViolated mcl (-1 + 1) = false := lengthViolated_nonpos (by omega)
  cases hparts : c.parts with
  | nil =>
    have hbufeq : (cleanR mps mcs mcl mpre stale (chainBytes c ++ B)).buffer =
        c.pfx ++ EOC_ORD :: B := by
      show chainBytes c ++ B = c.pfx ++ EOC_ORD :: B
      simp [chainBytes, hparts, partsBytes, catMap, List.append_assoc]
    have hfound := getPfx_found (cleanR mps mcs mcl mpre stale (chainBytes c ++ B))
      c.pfx EOC_ORD B rfl hbufeq hpre hhit (by simp [ZERO_SOP_ORD, EOC_ORD])
    rw [setSop_eoc] at hfound
    have hstep : get_next_part (cleanR mps mcs mcl mpre stale (chainBytes c ++ B)) = .ok (some (.pre c.pfx), true, ⟨mps, mcs, mcl, mpre, .inPfx, B, 0, none, stale, 0, -1⟩) := by
      rw [gnp_pfx _ rfl, hfound]
      rfl
    refine ⟨stale, ?_⟩
    rw [runItems_step_end _ _ _ hstep hsz0 hln0]
    simp [cleanR, chainItems, hparts]
  | cons p ps' =>
    have hple : p.length ≤ MAX64V := (by rw [hparts] at hfit; exact (hfit p (by simp)).2)
    have hbufeq : (cleanR mps mcs mcl mpre stale (chainBytes c ++ B)).buffer =
        c.pfx ++ sopByte p :: (tailEnc p ++ p ++ partsBytes ps' ++ B) := by
      show chainBytes c ++ B = _
      rw [chainBytes, hparts, partsBytes_cons ps' hple]
      simp [List.append_assoc]
    have hfound := getPfx_found (cleanR mps mcs mcl mpre stale (chainBytes c ++ B))
      c.pfx (sopByte p) (tailEnc p ++ p ++ partsBytes ps' ++ B) rfl hbufeq hpre hhit
      (sopByte_ge p)
    have hfit' : PartsFit mps (p :: ps') := by rw [hparts] at hfit; exact hfit
    have hsz' : limitViolated mcs (0 + c.pfx.length + partSizes (p :: ps')) = false := by
      apply limitViolated_mono _ hsz
      rw [hparts]
      omega
    have hln' : lengthViolated mcl (-1 + 1 + (((p :: ps').length : Nat) : Int)) = false := by
      apply lengthViolated_mono _ hln
      rw [hparts]
      omega
    by_cases hp0 : p.length = 0
    · have hsop : sopByte p = ZERO_SOP_ORD := by rw [sopByte, if_pos hp0]
      rw [hsop, setSop_sop0] at hfound
      have hstep : get_next_part (cleanR mps mcs mcl mpre stale (chainBytes c ++ B)) = .ok (some (.pre c.pfx), false, ⟨mps, mcs, mcl, mpre, .inBinaryPart, tailEnc p ++ p ++ partsBytes ps' ++ B, 0, some 0, some 0, 0, -1⟩) := by
      -- the buffer of the result only depends on the scanned buffer
        rw [gnp_pfx _ rfl, hfound]
        rfl
      rw [runItems_step_mid _ _ _ hstep hsz0 hln0]
      obtain ⟨stale2, hih⟩ := runParts ps' p mps mcs mcl mpre (some 0)
        (0 + c.pfx.length) (-1 + 1) B hfit' hsz' hln'
      have hR2 : ({ (⟨mps, mcs, mcl, mpre, .inBinaryPart, tailEnc p ++ p ++ partsBytes ps' ++ B, 0, some 0, some 0, 0, -1⟩ : StreamingChainReader) with chain_size := 0 + itemLen (.pre c.pfx), chain_length := -1 + 1 }) = partEntryState mps mcs mcl mpre (some 0) (0 + c.pfx.length) (-1 + 1) p (tailEnc p ++ p ++ partsBytes ps' ++ B) := by
        simp only [partEntryState, if_pos hp0]
        rfl
      rw [hR2, hih]
      refine ⟨stale2, ?_⟩
      simp [chainItems, hparts]
    · have hw : 1 ≤ widthOf p.length := widthOf_pos _
      have hw' : widthOf p.length ≤ 8 := widthOf_le8 _
      have hsop : sopByte p = ZERO_SOP_ORD + widthOf p.length := by
        rw [sopByte, if_neg hp0]
      rw [hsop, setSop_sopk _ _ hw hw'] at hfound
      have hstep : get_next_part (cleanR mps mcs mcl mpre stale (chainBytes c ++ B)) = .ok (some (.pre c.pfx), false, ⟨mps, mcs, mcl, mpre, .inPartLength, tailEnc p ++ p ++ partsBytes ps' ++ B, 0, some (widthOf p.length), stale, 0, -1⟩) := by
        rw [gnp_pfx _ rfl, hfound]
        rfl
      rw [runItems_step_mid _ _ _ hstep hsz0 hln0]
      obtain ⟨stale2, hih⟩ := runParts ps' p mps mcs mcl mpre stale
        (0 + c.pfx.length) (-1 + 1) B hfit' hsz' hln'
      have hR2 : ({ (⟨mps, mcs, mcl, mpre, .inPartLength, tailEnc p ++ p ++ partsBytes ps' ++ B, 0, some (widthOf p.length), stale, 0, -1⟩ : StreamingChainReader) with chain_size := 0 + itemLen (.pre c.pfx), chain_length := -1 + 1 }) = partEntryState mps mcs mcl mpre stale (0 + c.pfx.length) (-1 + 1) p (tailEnc p ++ p ++ partsBytes ps' ++ B) := by
        simp only [partEntryState, if_neg hp0]
        rfl
      rw [hR2, hih]
      refine ⟨stale2, ?_⟩
      simp [chainItems, hparts]

/-- Validity of one chain with respect to a reader configuration: ASCII
prefix within the prefix limit, parts within the part limit and the 8-byte
encoding, and chain size/length within the (possibly disabled) limits. -/
def ChainOK (mps : Nat) (mcs mcl mpre : Option Nat) (c : BinaryChain) : Prop :=
  (∀ b ∈ c.pfx, b < ZERO_SOP_ORD) ∧
  (∀ j, j ≤ c.pfx.length → prefixLimitHit mpre j = false) ∧
  PartsFit mps c.parts ∧
  limitViolated mcs (c.pfx.length + partSizes c.parts) = false ∧
  lengthViolated mcl ((c.parts.length : Nat) : Int) = false

lemma runChains (csl : List BinaryChain) (mps : Nat) (mcs mcl mpre : Option Nat) :
    ∀ (stale : Option Nat), (∀ c ∈ csl, ChainOK mps mcs mcl mpre c) →
    ∃ stale2, runItems (cleanR mps mcs mcl mpre stale (chainsBytes csl)) = (chainsItems csl, cleanR mps mcs mcl mpre stale2 [], none) := by
  induction csl with
  | nil =>
    intro stale _
    refine ⟨stale, ?_⟩
    have hstep : get_next_part (cleanR mps mcs mcl mpre stale (chainsBytes [])) = .ok (none, false, cleanR mps mcs mcl mpre stale (chainsBytes [])) := by
      rw [gnp_pfx _ rfl]
      exact getPfx_none _ rfl (by simp [cleanR, chainsBytes, catMap])
        (by simp [cleanR, chainsBytes, catMap])
    rw [runItems_none _ _ _ hstep]
    rfl
  | cons c rest ih =>
    intro stale hok
    have hc := hok c (by simp)
    obtain ⟨st2, h1⟩ := runChain c mps mcs mcl mpre stale (chainsBytes rest)
      hc.1 hc.2.1 hc.2.2.1 hc.2.2.2.1 hc.2.2.2.2
    obtain ⟨st3, h2⟩ := ih st2 (fun x hx => hok x (by simp [hx]))
    refine ⟨st3, ?_⟩
    have hbytes : chainsBytes (c :: rest) = chainBytes c ++ chainsBytes rest := rfl
    rw [hbytes, h1, h2]
    simp [chainsItems]

lemma create_eq_encLen {n : Nat} (h : n ≤ MAX64V) :
    create_part_length (n : Int) = .ok (encLen n) := by
  by_cases hn : n = 0
  · subst hn
    rw [encLen_zero]
    exact create_part_length_zero
  · rw [encLen_eq (by omega) h]
    exact create_part_length_pos (by omega) h

lemma serialise_parts_ok (ps : List (List Nat))
    (h : ∀ p ∈ ps, p.length ≤ MAX64V) :
    serialise_parts ps = .ok (catMap partBytes ps) := by
  induction ps with
  | nil => rfl
  | cons p rest ih =>
    rw [serialise_parts, create_eq_encLen (h p (by simp)),
      ih (fun q hq => h q (by simp [hq]))]
    simp [catMap, partBytes, List.append_assoc]

lemma serialise_ok (c : BinaryChain) (hpre : ∀ b ∈ c.pfx, b < ZERO_SOP_ORD)
    (h : ∀ p ∈ c.parts, p.length ≤ MAX64V) :
    c.serialise = .ok (chainBytes c) := by
  unfold BinaryChain.serialise
  rw [if_pos]
  · rw [serialise_parts_ok _ h]
    simp [chainBytes, partsBytes, List.append_assoc]
  · rw [List.all_eq_true]
    intro b hb
    have := hpre b hb
    simp only [ZERO_SOP_ORD] at this
    exact decide_eq_true this

lemma processItems_parts (bc : BinaryChain) (ps : List (List Nat))
    (rest : List ChainItem) :
    processItems bc (ps.map ChainItem.part ++ rest) =
      processItems ⟨bc.pfx, bc.parts ++ ps⟩ rest := by
  induction ps generalizing bc with
  | nil => simp
  | cons p ps ih =>
    simp only [List.map_cons, List.cons_append, processItems, List.append_eq]
    rw [ih ⟨bc.pfx, bc.parts ++ [p]⟩]
    simp [List.append_assoc]

lemma processItems_chains (csl : List BinaryChain) :
    processItems ⟨[], []⟩ (chainsItems csl) = (csl, ⟨[], []⟩) := by
  induction csl with
  | nil => rfl
  | cons c rest ih =>
    have hshape : chainsItems (c :: rest) =
        ChainItem.pre c.pfx :: (c.parts.map ChainItem.part ++
          (ChainItem.eoc :: chainsItems rest)) := by
      simp [chainsItems, chainItems, List.append_assoc]
    rw [hshape]
    simp only [processItems]
    rw [processItems_parts ⟨c.pfx, []⟩ c.parts (ChainItem.eoc :: chainsItems rest)]
    simp [processItems, ih]

lemma limitViolated_of_le_or_zero {m v : Nat} (h : v ≤ m ∨ m = 0) :
    limitViolated (some m) v = false := by
  simp only [limitViolated, Bool.and_eq_false_iff, decide_eq_false_iff_not]
  omega

lemma lengthViolated_of_le_or_zero {m v : Nat} (h : v ≤ m ∨ m = 0) :
    lengthViolated (some m) ((v : Nat) : Int) = false := by
  simp only [lengthViolated, Bool.and_eq_false_iff, decide_eq_false_iff_not]
  omega

lemma chainBytes_ne_nil (c : BinaryChain) : chainBytes c ≠ [] := by
  simp only [chainBytes, partsBytes]
  intro h
  have := congrArg List.length h
  simp at this

/-- C1: for every chain `C` with an ASCII prefix whose parts fit the
configured limits, serialising `C` and feeding the bytes in one call to a
fresh `ChainReader.get_binary_chains` yields exactly `[C]` with no error,
and `complete()` is true afterwards. -/
theorem C1_round_trip (mps mcs mcl : Nat) (c : BinaryChain)
    (hmps : 0 < mps)
    (hpre : ∀ b ∈ c.pfx, b < 0x80)
    (hparts : ∀ p ∈ c.parts, p.length ≤ mps ∧ p.length ≤ 2 ^ 64 - 1)
    (hsz : c.pfx.length + partSizes c.parts ≤ mcs ∨ mcs = 0)
    (hln : c.parts.length ≤ mcl ∨ mcl = 0) :
    c.serialise = .ok (chainBytes c) ∧
    ((ChainReader.new mps mcs mcl).get_binary_chains (chainBytes c)).1 = [c] ∧
    ((ChainReader.new mps mcs mcl).get_binary_chains (chainBytes c)).2.2 = none ∧
    ((ChainReader.new mps mcs mcl).get_binary_chains (chainBytes c)).2.1.complete = true := by
  have hmax : (2 : Nat) ^ 64 - 1 = MAX64V := by norm_num [MAX64V]
  have hfit : PartsFit mps c.parts := by
    intro p hp
    have := hparts p hp
    rw [hmax] at this
    exact this
  have hok : ∀ x ∈ [c], ChainOK mps (some mcs) (some mcl) none x := by
    intro x hx
    simp only [List.mem_singleton] at hx
    subst hx
    exact ⟨hpre, fun j hj => rfl, hfit, limitViolated_of_le_or_zero hsz,
      lengthViolated_of_le_or_zero hln⟩
  obtain ⟨stale2, hrun⟩ := runChains [c] mps (some mcs) (some mcl) none none hok
  have hbytes : chainsBytes [c] = chainBytes c := by
    simp [chainsBytes, catMap]
  rw [hbytes] at hrun
  have hitems : chainsItems [c] = chainItems c := by
    simp [chainsItems]
  rw [hitems] at hrun
  have hstream : (ChainReader.new mps mcs mcl).streaming_chain_reader.get_chain_items (chainBytes c) = (chainItems c, cleanR mps (some mcs) (some mcl) none stale2 [], none) := by
    rw [StreamingChainReader.get_chain_items, if_neg (chainBytes_ne_nil c)]
    have heq : ({ (ChainReader.new mps mcs mcl).streaming_chain_reader with buffer := (ChainReader.new mps mcs mcl).streaming_chain_reader.buffer ++ chainBytes c }) = cleanR mps (some mcs) (some mcl) none none (chainBytes c) := by
      simp [ChainReader.new, StreamingChainReader.new, cleanR]
    rw [heq, hrun]
  have hasm : processItems ⟨[], []⟩ (chainItems c) = ([c], ⟨[], []⟩) := by
    have := processItems_chains [c]
    rw [hitems] at this
    exact this
  refine ⟨serialise_ok c hpre (fun p hp => by rw [← hmax]; exact (hparts p hp).2), ?_, ?_, ?_⟩
  · show (processItems (ChainReader.new mps mcs mcl).bc ((ChainReader.new mps mcs mcl).streaming_chain_reader.get_chain_items (chainBytes c)).1).1 = [c]
    rw [hstream]
    show (processItems ⟨[], []⟩ (chainItems c)).1 = [c]
    rw [hasm]
  · show ((ChainReader.new mps mcs mcl).streaming_chain_reader.get_chain_items (chainBytes c)).2.2 = none
    rw [hstream]
  · show (((ChainReader.new mps mcs mcl).streaming_chain_reader.get_chain_items (chainBytes c)).2.1).complete = true
    rw [hstream]
    rfl

/-- Witness for C1 at the chain `BinaryChain "H" [[0x57, 0x58]]` with limits
`(10, 10, 10)`. -/
theorem C1_round_trip_witness :
    (⟨[0x48], [[0x57, 0x58]]⟩ : BinaryChain).serialise = .ok (chainBytes ⟨[0x48], [[0x57, 0x58]]⟩) ∧
    ((ChainReader.new 10 10 10).get_binary_chains (chainBytes ⟨[0x48], [[0x57, 0x58]]⟩)).1 = [⟨[0x48], [[0x57, 0x58]]⟩] ∧
    ((ChainReader.new 10 10 10).get_binary_chains (chainBytes ⟨[0x48], [[0x57, 0x58]]⟩)).2.2 = none ∧
    ((ChainReader.new 10 10 10).get_binary_chains (chainBytes ⟨[0x48], [[0x57, 0x58]]⟩)).2.1.complete = true :=
  C1_round_trip 10 10 10 ⟨[0x48], [[0x57, 0x58]]⟩ (by decide) (by decide)
    (by decide) (by norm_num [partSizes]) (by norm_num)

/-- Configuration and running counters are untouched by `_get_next_part`
(only the drained-loop in `get_chain_items` updates the counters). -/
def SameCfg (r r1 : StreamingChainReader) : Prop :=
  r1.max_part_size = r.max_part_size ∧ r1.max_chain_size = r.max_chain_size ∧
  r1.max_chain_length = r.max_chain_length ∧
  r1.max_prefix_size = r.max_prefix_size ∧
  r1.current_prefix_offset = r.current_prefix_offset ∧
  r1.chain_size = r.chain_size ∧ r1.chain_length = r.chain_length

lemma sameCfg_refl (r : StreamingChainReader) : SameCfg r r :=
  ⟨rfl, rfl, rfl, rfl, rfl, rfl, rfl⟩

lemma setSop_sameCfg (r : StreamingChainReader) (c : Nat) (r1 : StreamingChainReader)
    (b : Bool) (h : set_state_and_part_length_size_from_sop r c = .ok (r1, b)) :
    SameCfg r r1 ∧ r1.buffer = r.buffer := by
  unfold set_state_and_part_length_size_from_sop at h
  by_cases h1 : c = EOC_ORD
  · simp only [if_pos h1, Except.ok.injEq, Prod.mk.injEq] at h
    rw [← h.1]
    exact ⟨sameCfg_refl _, rfl⟩
  · simp only [if_neg h1] at h
    by_cases h2 : ZERO_SOP_ORD ≤ c ∧ c ≤ ZERO_SOP_ORD + MAX_LENGTH_SIZE
    · simp only [if_pos h2] at h
      by_cases h3 : c - ZERO_SOP_ORD = 0
      · simp only [if_pos h3, Except.ok.injEq, Prod.mk.injEq] at h
        rw [← h.1]
        exact ⟨sameCfg_refl _, rfl⟩
      · simp only [if_neg h3, Except.ok.injEq, Prod.mk.injEq] at h
        rw [← h.1]
        exact ⟨sameCfg_refl _, rfl⟩
    · simp only [if_neg h2] at h
      exact absurd h (by simp)

lemma getPfx_sameCfg (r : StreamingChainReader) (opt : Option ChainItem) (b : Bool)
    (r1 : StreamingChainReader) (h : getPfx r = .ok (opt, b, r1)) : SameCfg r r1 := by
  simp only [getPfx] at h
  cases hscan : scanPfx r.max_prefix_size (r.buffer.drop r.current_prefix_offset)
      r.current_prefix_offset with
  | error e => simp [hscan] at h
  | ok o =>
    cases o with
    | none =>
      simp only [hscan, Except.ok.injEq, Prod.mk.injEq] at h
      rw [← h.2.2]
      exact sameCfg_refl _
    | some idx =>
      simp only [hscan, List.getD_eq_getElem?_getD] at h
      cases hs : set_state_and_part_length_size_from_sop r (r.buffer[idx]?.getD 0) with
      | error e => simp [hs] at h
      | ok v =>
        rcases v with ⟨r2, at_end⟩
        rw [hs] at h
        simp only [Except.ok.injEq, Prod.mk.injEq] at h
        have hcfg := (setSop_sameCfg r _ r2 at_end hs).1
        rw [← h.2.2]
        exact hcfg

lemma get_binary_part_sameCfg (r : StreamingChainReader) (opt : Option ChainItem)
    (b : Bool) (r1 : StreamingChainReader)
    (h : get_binary_part r = .ok (opt, b, r1)) : SameCfg r r1 := by
  simp only [get_binary_part] at h
  cases hbpl : r.binary_part_length with
  | none => simp [hbpl] at h
  | some n =>
    simp only [hbpl] at h
    split_ifs at h with h1 h2
    · simp only [List.getD_eq_getElem?_getD] at h
      cases hs : set_state_and_part_length_size_from_sop r (r.buffer[n]?.getD 0) with
      | error e => simp [hs] at h
      | ok v =>
        rcases v with ⟨r2, at_end⟩
        rw [hs] at h
        simp only [Except.ok.injEq, Prod.mk.injEq] at h
        have hcfg := (setSop_sameCfg r _ r2 at_end hs).1
        rw [← h.2.2]
        exact hcfg
    · simp only [Except.ok.injEq, Prod.mk.injEq] at h
      rw [← h.2.2]
      exact sameCfg_refl _

lemma read_part_length_sameCfg (r r1 : StreamingChainReader)
    (h : read_part_length r = .ok r1) : SameCfg r r1 := by
  simp only [read_part_length] at h
  cases hpls : r.part_length_size with
  | none => simp [hpls] at h
  | some w =>
    simp only [hpls] at h
    split_ifs at h with h1 h2 h3
    · simp only [Except.ok.injEq] at h
      rw [← h]
      exact sameCfg_refl _
    · simp only [Except.ok.injEq] at h
      rw [← h]
      exact sameCfg_refl _

lemma sameCfg_trans {r r1 r2 : StreamingChainReader} (h1 : SameCfg r r1)
    (h2 : SameCfg r1 r2) : SameCfg r r2 := by
  obtain ⟨a1, b1, c1, d1, e1, f1, g1⟩ := h1
  obtain ⟨a2, b2, c2, d2, e2, f2, g2⟩ := h2
  exact ⟨a2.trans a1, b2.trans b1, c2.trans c1, d2.trans d1, e2.trans e1,
    f2.trans f1, g2.trans g1⟩

lemma get_next_part_sameCfg (r : StreamingChainReader) (opt : Option ChainItem)
    (b : Bool) (r1 : StreamingChainReader)
    (h : get_next_part r = .ok (opt, b, r1)) : SameCfg r r1 := by
  simp only [get_next_part] at h
  cases hst : r.state with
  | inPfx => rw [hst] at h; exact getPfx_sameCfg r opt b r1 h
  | inBinaryPart => rw [hst] at h; exact get_binary_part_sameCfg r opt b r1 h
  | inPartLength =>
    rw [hst] at h
    cases hread : read_part_length r with
    | error e => simp [hread] at h
    | ok r2 =>
      simp only [hread] at h
      have hc1 := read_part_length_sameCfg r r2 hread
      cases hst2 : r2.state with
      | inPfx =>
        simp only [hst2, Except.ok.injEq, Prod.mk.injEq] at h
        rw [← h.2.2]
        exact hc1
      | inPartLength =>
        simp only [hst2, Except.ok.injEq, Prod.mk.injEq] at h
        rw [← h.2.2]
        exact hc1
      | inBinaryPart =>
        simp only [hst2] at h
        exact sameCfg_trans hc1 (get_binary_part_sameCfg r2 opt b r1 h)

lemma gnp_len_error (r : StreamingChainReader) (e : Err)
    (hst : r.state = .inPartLength) (hread : read_part_length r = .error e) :
    get_next_part r = .error e := by
  unfold get_next_part
  rw [hst, hread]

/-- C8: every byte in `0x89..0xFE` read in control position — terminating the
prefix region or terminating a part's payload — raises the
"Invalid start of part byte" `ParseError`, for every reader state. -/
theorem C8_invalid_control_byte_rejected :
    (∀ (r : StreamingChainReader) (b : Nat), 0x89 ≤ b → b ≤ 0xFE →
      set_state_and_part_length_size_from_sop r b =
        .error (.parseError "Invalid start of part byte")) ∧
    (∀ (r : StreamingChainReader) (lit : List Nat) (b : Nat) (rest : List Nat),
      r.state = .inPfx → r.current_prefix_offset = 0 →
      r.buffer = lit ++ b :: rest → (∀ x ∈ lit, x < 0x80) →
      (∀ j, j ≤ lit.length → prefixLimitHit r.max_prefix_size j = false) →
      0x89 ≤ b → b ≤ 0xFE →
      runItems r = ([], r, some (.parseError "Invalid start of part byte"))) ∧
    (∀ (r : StreamingChainReader) (n : Nat) (p : List Nat) (b : Nat)
        (rest : List Nat),
      r.state = .inBinaryPart → r.binary_part_length = some n →
      r.buffer = p ++ b :: rest → p.length = n →
      0x89 ≤ b → b ≤ 0xFE →
      runItems r = ([], r, some (.parseError "Invalid start of part byte"))) := by
  refine ⟨fun r b h1 h2 => setSop_invalid r b h1 h2, ?_, ?_⟩
  · intro r lit b rest hst hoff hbuf hlit hhit hb1 hb2
    have hfound := getPfx_found r lit b rest hoff hbuf (fun x hx => hlit x hx) hhit
      (by simp only [ZERO_SOP_ORD]; omega)
    rw [setSop_invalid r b hb1 hb2] at hfound
    have hstep : get_next_part r = .error (.parseError "Invalid start of part byte") := by
      rw [gnp_pfx r hst, hfound]
    exact runItems_error r _ hstep
  · intro r n p b rest hst hbpl hbuf hp hb1 hb2
    have hfound := get_binary_part_found r n p b rest hbpl hbuf hp
    rw [setSop_invalid r b hb1 hb2] at hfound
    have hstep : get_next_part r = .error (.parseError "Invalid start of part byte") := by
      rw [gnp_bin r hst, hfound]
    exact runItems_error r _ hstep

/-- Witness for C8: the byte `0x90` in prefix-terminator position and in
part-terminator position. -/
theorem C8_invalid_control_byte_rejected_witness :
    runItems ⟨1, none, none, none, .inPfx, [0x90], 0, none, none, 0, -1⟩ =
      ([], ⟨1, none, none, none, .inPfx, [0x90], 0, none, none, 0, -1⟩,
       some (.parseError "Invalid start of part byte")) ∧
    runItems ⟨1, none, none, none, .inBinaryPart, [0x41, 0x90], 0, some 1, some 1, 0, 0⟩ =
      ([], ⟨1, none, none, none, .inBinaryPart, [0x41, 0x90], 0, some 1, some 1, 0, 0⟩,
       some (.parseError "Invalid start of part byte")) :=
  ⟨C8_invalid_control_byte_rejected.2.1 _ [] 0x90 [] rfl rfl rfl (by decide)
    (fun j hj => rfl) (by norm_num) (by norm_num),
   C8_invalid_control_byte_rejected.2.2 _ 1 [0x41] 0x90 [] rfl rfl rfl rfl
    (by norm_num) (by norm_num)⟩

/-- C3 (amended): limits are enforced fail-fast for every configured
positive value — an over-limit declared part length errors as soon as the
length field is decoded (no payload buffered), and a chain-size or
chain-length violation errors at the step that counts the violating
fragment, before it is emitted — but a configured value of `0` is falsy in
the source's truthiness test and disables the check entirely. -/
theorem C3_limit_enforcement_amended :
    (∀ (r : StreamingChainReader) (w : Nat),
      r.state = .inPartLength → r.part_length_size = some w → w ≠ 0 →
      w ≤ r.buffer.length →
      r.max_part_size < fromBytesBE (r.buffer.take w) →
      runItems r = ([], r, some (.parseError "Part length too long"))) ∧
    (∀ (r r1 : StreamingChainReader) (item : ChainItem) (at_end : Bool) (m : Nat),
      r.max_chain_size = some m → m ≠ 0 →
      get_next_part r = .ok (some item, at_end, r1) →
      m < r.chain_size + itemLen item →
      runItems r = ([], { r1 with chain_size := r1.chain_size + itemLen item, chain_length := r1.chain_length + 1 }, some (.parseError "chain size too big"))) ∧
    (∀ (r r1 : StreamingChainReader) (item : ChainItem) (at_end : Bool) (k : Nat),
      r.max_chain_length = some k → k ≠ 0 →
      get_next_part r = .ok (some item, at_end, r1) →
      limitViolated r.max_chain_size (r.chain_size + itemLen item) = false →
      (k : Int) < r.chain_length + 1 →
      runItems r = ([], { r1 with chain_size := r1.chain_size + itemLen item, chain_length := r1.chain_length + 1 }, some (.parseError "chain too long"))) ∧
    (∀ v : Nat, limitViolated (some 0) v = false) ∧
    (∀ v : Int, lengthViolated (some 0) v = false) := by
  refine ⟨?_, ?_, ?_, fun v => by simp [limitViolated], fun v => by simp [lengthViolated]⟩
  · intro r w hst hpls hw hlen hn
    have hread := read_part_length_too_long r w (r.buffer.take w) (r.buffer.drop w)
      hpls hw (List.take_append_drop w r.buffer).symm
      (by rw [List.length_take]; omega) hn
    exact runItems_error r _ (gnp_len_error r _ hst hread)
  · intro r r1 item at_end m hm hm0 hstep hlt
    obtain ⟨_, hmcs, _, _, _, hcs, _⟩ := get_next_part_sameCfg r _ _ _ hstep
    have hsz : limitViolated r1.max_chain_size (r1.chain_size + itemLen item) = true := by
      rw [hmcs, hm, hcs]
      simp only [limitViolated, Bool.and_eq_true, decide_eq_true_eq]
      omega
    exact runItems_size_err r r1 item at_end hstep hsz
  · intro r r1 item at_end k hk hk0 hstep hsz hlt
    obtain ⟨_, hmcs, hmcl, _, _, hcs, hcl⟩ := get_next_part_sameCfg r _ _ _ hstep
    have hsz' : limitViolated r1.max_chain_size (r1.chain_size + itemLen item) = false := by
      rw [hmcs, hcs]
      exact hsz
    have hln : lengthViolated r1.max_chain_length (r1.chain_length + 1) = true := by
      rw [hmcl, hk, hcl]
      simp only [lengthViolated, Bool.and_eq_true, decide_eq_true_eq]
      constructor
      · omega
      · omega
    exact runItems_len_err r r1 item at_end hstep hsz' hln

/-- Witness for C3 (amended): a declared length `5 > 1` errors with only the
length field buffered; a 2-byte prefix trips `max_chain_size = 1` before the
prefix fragment is emitted; a part count of 2 trips `max_chain_length = 1`
before the second part is emitted. -/
theorem C3_limit_enforcement_amended_witness :
    runItems ⟨1, none, none, none, .inPartLength, [5], 0, some 1, none, 0, -1⟩ =
      ([], ⟨1, none, none, none, .inPartLength, [5], 0, some 1, none, 0, -1⟩,
       some (.parseError "Part length too long")) ∧
    runItems ⟨1, some 1, none, none, .inPfx, [0x61, 0x61, 0xFF], 0, none, none, 0, -1⟩ =
      ([], ⟨1, some 1, none, none, .inPfx, [], 0, none, none, 2, 0⟩,
       some (.parseError "chain size too big")) ∧
    runItems ⟨1, none, some 1, none, .inBinaryPart, [0xFF], 0, some 0, some 0, 3, 1⟩ =
      ([], ⟨1, none, some 1, none, .inPfx, [], 0, none, some 0, 3, 2⟩,
       some (.parseError "chain too long")) := by
  refine ⟨?_, ?_, ?_⟩
  · exact C3_limit_enforcement_amended.1 _ 1 rfl rfl (by decide) (by decide) (by decide)
  · exact C3_limit_enforcement_amended.2.1
      ⟨1, some 1, none, none, .inPfx, [0x61, 0x61, 0xFF], 0, none, none, 0, -1⟩
      ⟨1, some 1, none, none, .inPfx, [], 0, none, none, 0, -1⟩
      (.pre [0x61, 0x61]) true 1 rfl (by decide) (by decide) (by decide)
  · exact C3_limit_enforcement_amended.2.2.1
      ⟨1, none, some 1, none, .inBinaryPart, [0xFF], 0, some 0, some 0, 3, 1⟩
      ⟨1, none, some 1, none, .inPfx, [], 0, none, some 0, 3, 1⟩
      (.part []) true 1 rfl (by decide) (by decide) (by decide) (by decide)

/-- C4 (amended): with `max_prefix_size = m`, a prefix of exactly `m`
literal bytes followed by its terminator is accepted; the incremental scan
raises "Prefix too long" only once it reaches index `m + 1`, i.e. once at
least `m + 2` bytes are buffered of which the first `m + 1` are literal —
`m + 1` buffered literal bytes alone do not yet raise. -/
theorem C4_prefix_limit_amended :
    (∀ (mps m : Nat) (lit : List Nat), lit.length = m → (∀ b ∈ lit, b < 0x80) →
      ((StreamingChainReader.new mps none none (some m)).get_chain_items
        (lit ++ [0xFF])).1 = [.pre lit, .eoc] ∧
      ((StreamingChainReader.new mps none none (some m)).get_chain_items
        (lit ++ [0xFF])).2.2 = none ∧
      ((StreamingChainReader.new mps none none (some m)).get_chain_items
        (lit ++ [0xFF])).2.1.complete = true) ∧
    (∀ (mps m : Nat) (lit rest : List Nat), lit.length = m + 1 →
      (∀ b ∈ lit, b < 0x80) → rest ≠ [] →
      ((StreamingChainReader.new mps none none (some m)).get_chain_items
        (lit ++ rest)).1 = [] ∧
      ((StreamingChainReader.new mps none none (some m)).get_chain_items
        (lit ++ rest)).2.2 = some (.parseError "Prefix too long")) := by
  constructor
  · intro mps m lit hlen hlit
    have hok : ∀ x ∈ [(⟨lit, []⟩ : BinaryChain)], ChainOK mps none none (some m) x := by
      intro x hx
      simp only [List.mem_singleton] at hx
      subst hx
      refine ⟨hlit, ?_, fun p hp => absurd hp (by simp), rfl, rfl⟩
      intro j hj
      have hj' : j ≤ lit.length := hj
      simp only [prefixLimitHit, decide_eq_false_iff_not]
      omega
    obtain ⟨stale2, hrun⟩ := runChains [⟨lit, []⟩] mps none none (some m) none hok
    have hbytes : chainsBytes [(⟨lit, []⟩ : BinaryChain)] = lit ++ [0xFF] := by
      simp [chainsBytes, catMap, chainBytes, partsBytes]
      rfl
    have hne : lit ++ [(0xFF : Nat)] ≠ [] := by simp
    have heq : ({ StreamingChainReader.new mps none none (some m) with buffer := (StreamingChainReader.new mps none none (some m)).buffer ++ (lit ++ [0xFF]) }) = cleanR mps none none (some m) none (chainsBytes [(⟨lit, []⟩ : BinaryChain)]) := by
      rw [hbytes]
      simp [StreamingChainReader.new, cleanR]
    have hitems : chainsItems [(⟨lit, []⟩ : BinaryChain)] = [.pre lit, .eoc] := by
      simp [chainsItems, chainItems]
    refine ⟨?_, ?_, ?_⟩ <;>
      (rw [StreamingChainReader.get_chain_items, if_neg hne, heq, hrun]; try rw [hitems]) <;> rfl
  · intro mps m lit rest hlen hlit hrest
    have hne : lit ++ rest ≠ [] := by
      intro h
      have := congrArg List.length h
      simp [hlen] at this
    have herr : getPfx ({ StreamingChainReader.new mps none none (some m) with buffer := (StreamingChainReader.new mps none none (some m)).buffer ++ (lit ++ rest) }) = .error (.parseError "Prefix too long") := by
      apply getPfx_hit_error _ lit rest rfl
      · simp [StreamingChainReader.new]
      · exact fun x hx => hlit x hx
      · intro j hj
        simp only [StreamingChainReader.new, prefixLimitHit, decide_eq_false_iff_not]
        omega
      · simp only [StreamingChainReader.new, hlen, prefixLimitHit, decide_eq_true_eq]
        omega
      · exact hrest
    constructor <;>
    · rw [StreamingChainReader.get_chain_items, if_neg hne,
        runItems_error _ _ (by rw [gnp_pfx _ rfl]; exact herr)]

/-- Witness for C4 (amended) at `m = 1`: prefix `[0x41]` with terminator is
accepted; two literal bytes plus one more byte raise "Prefix too long". -/
theorem C4_prefix_limit_amended_witness :
    (((StreamingChainReader.new 1 none none (some 1)).get_chain_items
        ([0x41] ++ [0xFF])).1 = [.pre [0x41], .eoc] ∧
     ((StreamingChainReader.new 1 none none (some 1)).get_chain_items
        ([0x41] ++ [0xFF])).2.2 = none ∧
     ((StreamingChainReader.new 1 none none (some 1)).get_chain_items
        ([0x41] ++ [0xFF])).2.1.complete = true) ∧
    (((StreamingChainReader.new 1 none none (some 1)).get_chain_items
        ([0x41, 0x42] ++ [0x43])).1 = [] ∧
     ((StreamingChainReader.new 1 none none (some 1)).get_chain_items
        ([0x41, 0x42] ++ [0x43])).2.2 = some (.parseError "Prefix too long")) :=
  ⟨C4_prefix_limit_amended.1 1 1 [0x41] rfl (by decide),
   C4_prefix_limit_amended.2 1 1 [0x41, 0x42] [0x43] rfl (by decide) (by decide)⟩

/-- C5 (amended): the running `_chain_size` counter includes the prefix
fragment: with `max_chain_size = s > 0`, a chain whose prefix alone exceeds
`s` bytes is rejected with "chain size too big" even though it has no parts,
while a chain with `prefix bytes + part bytes ≤ s` parses completely; only
`_chain_length` (starting at `-1`) excludes the prefix. -/
theorem C5_chain_size_amended :
    (∀ (mps s : Nat) (lit rest : List Nat), s ≠ 0 → (∀ b ∈ lit, b < 0x80) →
      s < lit.length →
      ((StreamingChainReader.new mps (some s) none none).get_chain_items
        (lit ++ 0xFF :: rest)).1 = [] ∧
      ((StreamingChainReader.new mps (some s) none none).get_chain_items
        (lit ++ 0xFF :: rest)).2.2 = some (.parseError "chain size too big")) ∧
    (∀ (mps s : Nat) (c : BinaryChain), (∀ b ∈ c.pfx, b < 0x80) →
      PartsFit mps c.parts → c.pfx.length + partSizes c.parts ≤ s →
      ((StreamingChainReader.new mps (some s) none none).get_chain_items
        (chainBytes c)).1 = chainItems c ∧
      ((StreamingChainReader.new mps (some s) none none).get_chain_items
        (chainBytes c)).2.2 = none) := by
  constructor
  · intro mps s lit rest hs hlit hlt
    have hne : lit ++ 0xFF :: rest ≠ [] := by simp
    have hfound := getPfx_found
      ({ StreamingChainReader.new mps (some s) none none with buffer := (StreamingChainReader.new mps (some s) none none).buffer ++ (lit ++ 0xFF :: rest) })
      lit EOC_ORD rest rfl (by simp [StreamingChainReader.new, EOC_ORD]) (fun x hx => hlit x hx)
      (fun j hj => rfl) (by simp [ZERO_SOP_ORD, EOC_ORD])
    rw [setSop_eoc] at hfound
    have hstep : get_next_part ({ StreamingChainReader.new mps (some s) none none with buffer := (StreamingChainReader.new mps (some s) none none).buffer ++ (lit ++ 0xFF :: rest) }) = .ok (some (.pre lit), true, ⟨mps, some s, none, none, .inPfx, rest, 0, none, none, 0, -1⟩) := by
      rw [gnp_pfx _ rfl, hfound]
      rfl
    have hsz : limitViolated (some s) (0 + itemLen (.pre lit)) = true := by
      simp only [limitViolated, itemLen, Bool.and_eq_true, decide_eq_true_eq]
      omega
    constructor <;>
    · rw [StreamingChainReader.get_chain_items, if_neg hne,
        runItems_size_err _ _ _ _ hstep hsz]
  · intro mps s c hpre hfit hsz
    have hok : ∀ x ∈ [c], ChainOK mps (some s) none none x := by
      intro x hx
      simp only [List.mem_singleton] at hx
      subst hx
      exact ⟨hpre, fun j hj => rfl, hfit,
        limitViolated_of_le_or_zero (Or.inl hsz), rfl⟩
    obtain ⟨stale2, hrun⟩ := runChains [c] mps (some s) none none none hok
    have hbytes : chainsBytes [c] = chainBytes c := by simp [chainsBytes, catMap]
    rw [hbytes] at hrun
    have hitems : chainsItems [c] = chainItems c := by simp [chainsItems]
    rw [hitems] at hrun
    have heq : ({ StreamingChainReader.new mps (some s) none none with buffer := (StreamingChainReader.new mps (some s) none none).buffer ++ chainBytes c }) = cleanR mps (some s) none none none (chainBytes c) := by
      simp [StreamingChainReader.new, cleanR]
    constructor <;>
    · rw [StreamingChainReader.get_chain_items, if_neg (chainBytes_ne_nil c), heq, hrun]

/-- Witness for C5 (amended): prefix "aaaa" alone trips `max_chain_size = 3`;
the chain `BinaryChain "ab" [[0x01]]` (3 bytes total) parses under the same
limit. -/
theorem C5_chain_size_amended_witness :
    (((StreamingChainReader.new 1 (some 3) none none).get_chain_items
        ([0x61, 0x61, 0x61, 0x61] ++ 0xFF :: [])).1 = [] ∧
     ((StreamingChainReader.new 1 (some 3) none none).get_chain_items
        ([0x61, 0x61, 0x61, 0x61] ++ 0xFF :: [])).2.2 =
        some (.parseError "chain size too big")) ∧
    (((StreamingChainReader.new 1 (some 3) none none).get_chain_items
        (chainBytes ⟨[0x61, 0x62], [[0x01]]⟩)).1 =
        chainItems ⟨[0x61, 0x62], [[0x01]]⟩ ∧
     ((StreamingChainReader.new 1 (some 3) none none).get_chain_items
        (chainBytes ⟨[0x61, 0x62], [[0x01]]⟩)).2.2 = none) :=
  ⟨C5_chain_size_amended.1 1 3 [0x61, 0x61, 0x61, 0x61] [] (by decide) (by decide)
    (by decide),
   C5_chain_size_amended.2 1 3 ⟨[0x61, 0x62], [[0x01]]⟩ (by decide)
    (by intro p hp; simp only [List.mem_singleton] at hp; subst hp
        exact ⟨by norm_num, by norm_num [MAX64V]⟩)
    (by norm_num [partSizes])⟩

lemma getD_lt_append {idx : Nat} (a b : List Nat) (h : idx < a.length) :
    (a ++ b).getD idx 0 = a.getD idx 0 := by
  induction a generalizing idx with
  | nil => simp at h
  | cons x xs ih =>
    cases idx with
    | zero => rfl
    | succ n =>
      simp only [List.length_cons, Nat.succ_lt_succ_iff] at h
      simpa using ih h

lemma scanPfx_found_ext (mpre : Option Nat) (l Y : List Nat) (i idx : Nat)
    (h : scanPfx mpre l i = .ok (some idx)) :
    scanPfx mpre (l ++ Y) i = .ok (some idx) := by
  induction l generalizing i with
  | nil => simp [scanPfx] at h
  | cons b bs ih =>
    rw [scanPfx] at h
    rw [List.cons_append, scanPfx]
    split_ifs at h with h1 h2
    · rw [if_neg (by simp [h1]), if_pos h2]
      exact h
    · rw [if_neg (by simp [h1]), if_neg h2]
      exact ih (i + 1) h

lemma scanPfx_error_ext (mpre : Option Nat) (l Y : List Nat) (i : Nat) (e : Err)
    (h : scanPfx mpre l i = .error e) :
    scanPfx mpre (l ++ Y) i = .error e := by
  induction l generalizing i with
  | nil => simp [scanPfx] at h
  | cons b bs ih =>
    rw [scanPfx] at h
    rw [List.cons_append, scanPfx]
    split_ifs at h with h1 h2
    · rw [if_pos h1]
      exact h
    · rw [if_neg h1, if_neg h2]
      exact ih (i + 1) h

/-- The pending-buffer invariant carried through a run: the scan offset is 0
(the source never updates it) and any recorded part length has already been
checked against `max_part_size`. -/
def RInv (r : StreamingChainReader) : Prop :=
  r.current_prefix_offset = 0 ∧
  ∀ n, r.binary_part_length = some n → n ≤ r.max_part_size

lemma setSop_ext_ok (r : StreamingChainReader) (c : Nat) (r2 : StreamingChainReader)
    (b : Bool) (buf' : List Nat)
    (h : set_state_and_part_length_size_from_sop r c = .ok (r2, b)) :
    set_state_and_part_length_size_from_sop { r with buffer := buf' } c =
      .ok ({ r2 with buffer := buf' }, b) := by
  unfold set_state_and_part_length_size_from_sop at h ⊢
  by_cases h1 : c = EOC_ORD
  · simp only [if_pos h1, Except.ok.injEq, Prod.mk.injEq] at h ⊢
    exact ⟨by rw [← h.1], h.2⟩
  · simp only [if_neg h1] at h ⊢
    by_cases h2 : ZERO_SOP_ORD ≤ c ∧ c ≤ ZERO_SOP_ORD + MAX_LENGTH_SIZE
    · simp only [if_pos h2] at h ⊢
      by_cases h3 : c - ZERO_SOP_ORD = 0
      · simp only [if_pos h3, Except.ok.injEq, Prod.mk.injEq] at h ⊢
        exact ⟨by rw [← h.1], h.2⟩
      · simp only [if_neg h3, Except.ok.injEq, Prod.mk.injEq] at h ⊢
        exact ⟨by rw [← h.1], h.2⟩
    · simp only [if_neg h2] at h
      exact absurd h (by simp)

lemma setSop_ext_err (r : StreamingChainReader) (c : Nat) (e : Err)
    (buf' : List Nat)
    (h : set_state_and_part_length_size_from_sop r c = .error e) :
    set_state_and_part_length_size_from_sop { r with buffer := buf' } c =
      .error e := by
  unfold set_state_and_part_length_size_from_sop at h ⊢
  by_cases h1 : c = EOC_ORD
  · simp [if_pos h1] at h
  · simp only [if_neg h1] at h ⊢
    by_cases h2 : ZERO_SOP_ORD ≤ c ∧ c ≤ ZERO_SOP_ORD + MAX_LENGTH_SIZE
    · simp only [if_pos h2] at h ⊢
      by_cases h3 : c - ZERO_SOP_ORD = 0
      · simp [if_pos h3] at h
      · simp [if_neg h3] at h
    · simp only [if_neg h2] at h ⊢
      exact h

lemma setSop_bpl (r : StreamingChainReader) (c : Nat) (r2 : StreamingChainReader)
    (b : Bool) (h : set_state_and_part_length_size_from_sop r c = .ok (r2, b)) :
    r2.binary_part_length = r.binary_part_length ∨ r2.binary_part_length = some 0 := by
  unfold set_state_and_part_length_size_from_sop at h
  by_cases h1 : c = EOC_ORD
  · simp only [if_pos h1, Except.ok.injEq, Prod.mk.injEq] at h
    left
    rw [← h.1]
  · simp only [if_neg h1] at h
    by_cases h2 : ZERO_SOP_ORD ≤ c ∧ c ≤ ZERO_SOP_ORD + MAX_LENGTH_SIZE
    · simp only [if_pos h2] at h
      by_cases h3 : c - ZERO_SOP_ORD = 0
      · simp only [if_pos h3, Except.ok.injEq, Prod.mk.injEq] at h
        right
        rw [← h.1]
      · simp only [if_neg h3, Except.ok.injEq, Prod.mk.injEq] at h
        left
        rw [← h.1]
    · simp only [if_neg h2] at h
      exact absurd h (by simp)

lemma getPfx_none_inv (r r1 : StreamingChainReader) (b : Bool)
    (h : getPfx r = .ok (none, b, r1)) : r1 = r ∧ b = false := by
  simp only [getPfx] at h
  cases hscan : scanPfx r.max_prefix_size (r.buffer.drop r.current_prefix_offset)
      r.current_prefix_offset with
  | error e => simp [hscan] at h
  | ok o =>
    cases o with
    | none =>
      simp only [hscan, Except.ok.injEq, Prod.mk.injEq] at h
      exact ⟨h.2.2.symm, h.2.1.symm⟩
    | some idx =>
      simp only [hscan, List.getD_eq_getElem?_getD] at h
      cases hs : set_state_and_part_length_size_from_sop r (r.buffer[idx]?.getD 0) with
      | error e => simp [hs] at h
      | ok v =>
        rcases v with ⟨r2, at_end⟩
        rw [hs] at h
        simp at h

lemma getPfx_some_inv (r r1 : StreamingChainReader) (item : ChainItem) (b : Bool)
    (h : getPfx r = .ok (some item, b, r1)) :
    ∃ idx r2,
      scanPfx r.max_prefix_size (r.buffer.drop r.current_prefix_offset)
        r.current_prefix_offset = .ok (some idx) ∧
      set_state_and_part_length_size_from_sop r (r.buffer.getD idx 0) = .ok (r2, b) ∧
      item = .pre (r.buffer.take idx) ∧
      r1 = { r2 with buffer := r.buffer.drop (idx + 1) } := by
  simp only [getPfx] at h
  cases hscan : scanPfx r.max_prefix_size (r.buffer.drop r.current_prefix_offset)
      r.current_prefix_offset with
  | error e => simp [hscan] at h
  | ok o =>
    cases o with
    | none => simp [hscan] at h
    | some idx =>
      simp only [hscan, List.getD_eq_getElem?_getD] at h
      cases hs : set_state_and_part_length_size_from_sop r (r.buffer[idx]?.getD 0) with
      | error e => simp [hs] at h
      | ok v =>
        rcases v with ⟨r2, at_end⟩
        rw [hs] at h
        simp only [Except.ok.injEq, Prod.mk.injEq, Option.some.injEq] at h
        refine ⟨idx, r2, rfl, ?_, h.1.symm, h.2.2.symm⟩
        rw [List.getD_eq_getElem?_getD, hs, h.2.1]

lemma get_binary_part_none_inv (r r1 : StreamingChainReader) (b : Bool)
    (h : get_binary_part r = .ok (none, b, r1)) :
    r1 = r ∧ b = false ∧ ∃ n, r.binary_part_length = some n ∧
      r.buffer.length < n + 1 ∧ r.buffer.length ≤ r.max_part_size := by
  simp only [get_binary_part] at h
  cases hbpl : r.binary_part_length with
  | none => simp [hbpl] at h
  | some n =>
    simp only [hbpl] at h
    split_ifs at h with h1 h2
    · simp only [List.getD_eq_getElem?_getD] at h
      cases hs : set_state_and_part_length_size_from_sop r (r.buffer[n]?.getD 0) with
      | error e => simp [hs] at h
      | ok v =>
        rcases v with ⟨r2, at_end⟩
        rw [hs] at h
        simp at h
    · simp only [Except.ok.injEq, Prod.mk.injEq] at h
      exact ⟨h.2.2.symm, h.2.1.symm, n, rfl, by omega, by omega⟩

lemma get_binary_part_some_inv (r r1 : StreamingChainReader) (item : ChainItem)
    (b : Bool) (h : get_binary_part r = .ok (some item, b, r1)) :
    ∃ n r2, r.binary_part_length = some n ∧ n + 1 ≤ r.buffer.length ∧
      set_state_and_part_length_size_from_sop r (r.buffer.getD n 0) = .ok (r2, b) ∧
      item = .part (r.buffer.take n) ∧
      r1 = { r2 with buffer := r.buffer.drop (n + 1) } := by
  simp only [get_binary_part] at h
  cases hbpl : r.binary_part_length with
  | none => simp [hbpl] at h
  | some n =>
    simp only [hbpl] at h
    split_ifs at h with h1 h2
    · simp only [List.getD_eq_getElem?_getD] at h
      cases hs : set_state_and_part_length_size_from_sop r (r.buffer[n]?.getD 0) with
      | error e => simp [hs] at h
      | ok v =>
        rcases v with ⟨r2, at_end⟩
        rw [hs] at h
        simp only [Except.ok.injEq, Prod.mk.injEq, Option.some.injEq] at h
        refine ⟨n, r2, rfl, h1, ?_, h.1.symm, h.2.2.symm⟩
        rw [List.getD_eq_getElem?_getD, hs, h.2.1]
    · simp at h

lemma read_part_length_inv (r r1 : StreamingChainReader)
    (h : read_part_length r = .ok r1) :
    (r1 = r ∧ ∃ w, r.part_length_size = some w ∧ w ≠ 0 ∧ r.buffer.length < w) ∨
    (∃ w, r.part_length_size = some w ∧ w ≠ 0 ∧ w ≤ r.buffer.length ∧
      fromBytesBE (r.buffer.take w) ≤ r.max_part_size ∧
      r1 = { r with buffer := r.buffer.drop w, state := .inBinaryPart, binary_part_length := some (fromBytesBE (r.buffer.take w)) }) := by
  simp only [read_part_length] at h
  cases hpls : r.part_length_size with
  | none => simp [hpls] at h
  | some w =>
    simp only [hpls] at h
    split_ifs at h with h1 h2 h3
    · right
      simp only [Except.ok.injEq] at h
      exact ⟨w, rfl, h1, h2, by omega, h.symm⟩
    · left
      simp only [Except.ok.injEq] at h
      exact ⟨h.symm, w, rfl, h1, by omega⟩

lemma getPfx_some_ext (r r1 : StreamingChainReader) (item : ChainItem) (b : Bool)
    (Y : List Nat) (hoff : r.current_prefix_offset = 0)
    (h : getPfx r = .ok (some item, b, r1)) :
    getPfx { r with buffer := r.buffer ++ Y } =
      .ok (some item, b, { r1 with buffer := r1.buffer ++ Y }) := by
  obtain ⟨idx, r2, hscan, hs, hit, hr1⟩ := getPfx_some_inv r r1 item b h
  rw [hoff, List.drop_zero] at hscan
  have hlt : idx < r.buffer.length := by
    have := scanPfx_some_lt _ _ _ _ hscan
    omega
  have hscan' : scanPfx r.max_prefix_size (r.buffer ++ Y) 0 = .ok (some idx) :=
    scanPfx_found_ext _ _ Y _ _ hscan
  have hgd : (r.buffer ++ Y).getD idx 0 = r.buffer.getD idx 0 :=
    getD_lt_append _ _ hlt
  have hs' := setSop_ext_ok r _ r2 b (r.buffer ++ Y) hs
  rw [hoff] at hs'
  simp only [getPfx, hoff, List.drop_zero, hscan', hgd, hs']
  rw [take_le_append _ _ (by omega), drop_le_append _ _ (by omega)]
  rw [hit, hr1]

lemma get_binary_part_some_ext (r r1 : StreamingChainReader) (item : ChainItem)
    (b : Bool) (Y : List Nat)
    (h : get_binary_part r = .ok (some item, b, r1)) :
    get_binary_part { r with buffer := r.buffer ++ Y } =
      .ok (some item, b, { r1 with buffer := r1.buffer ++ Y }) := by
  obtain ⟨n, r2, hbpl, hlen, hs, hit, hr1⟩ := get_binary_part_some_inv r r1 item b h
  have hlen' : n + 1 ≤ (r.buffer ++ Y).length := by
    simp only [List.length_append]
    omega
  have hgd : (r.buffer ++ Y).getD n 0 = r.buffer.getD n 0 :=
    getD_lt_append _ _ (by omega)
  have hs' := setSop_ext_ok r _ r2 b (r.buffer ++ Y) hs
  rw [hbpl] at hs'
  simp only [get_binary_part, hbpl, if_pos hlen', hgd, hs']
  rw [take_le_append _ _ (by omega), drop_le_append _ _ hlen]
  rw [hit, hr1]

lemma read_part_length_ext (r r1 : StreamingChainReader) (Y : List Nat)
    (h : read_part_length r = .ok r1) (hch : r1.state = .inBinaryPart)
    (hst : r.state = .inPartLength) :
    read_part_length { r with buffer := r.buffer ++ Y } =
      .ok { r1 with buffer := r1.buffer ++ Y } := by
  rcases read_part_length_inv r r1 h with ⟨hEq, _⟩ | ⟨w, hpls, hw, hwlen, hmax, hr1⟩
  · rw [hEq, hst] at hch
    exact absurd hch (by simp)
  · have hres := read_part_length_ok { r with buffer := r.buffer ++ Y } w
      (r.buffer.take w) (r.buffer.drop w ++ Y) hpls hw
      (by show r.buffer ++ Y = _; rw [← List.append_assoc, List.take_append_drop])
      (by simp only [List.length_take]; omega) hmax
    rw [hres, hr1]

lemma gnp_len_read (r rA : StreamingChainReader) (hst : r.state = .inPartLength)
    (hread : read_part_length r = .ok rA) (hstA : rA.state = .inBinaryPart) :
    get_next_part r = get_binary_part rA := by
  simp only [get_next_part, hst, hread, hstA]

lemma gnp_len_suspend (r rA : StreamingChainReader) (hst : r.state = .inPartLength)
    (hread : read_part_length r = .ok rA) (hstA : rA.state = .inPartLength) :
    get_next_part r = .ok (none, false, rA) := by
  simp only [get_next_part, hst, hread, hstA]

lemma gnp_len_pfxA (r rA : StreamingChainReader) (hst : r.state = .inPartLength)
    (hread : read_part_length r = .ok rA) (hstA : rA.state = .inPfx) :
    get_next_part r = .ok (none, false, rA) := by
  simp only [get_next_part, hst, hread, hstA]

lemma get_next_part_some_ext (r r1 : StreamingChainReader) (item : ChainItem)
    (b : Bool) (Y : List Nat) (hoff : r.current_prefix_offset = 0)
    (h : get_next_part r = .ok (some item, b, r1)) :
    get_next_part { r with buffer := r.buffer ++ Y } =
      .ok (some item, b, { r1 with buffer := r1.buffer ++ Y }) := by
  cases hst : r.state with
  | inPfx =>
    rw [gnp_pfx r hst] at h
    rw [← hst]
    rw [gnp_pfx { r with buffer := r.buffer ++ Y } hst]
    exact getPfx_some_ext r r1 item b Y hoff h
  | inBinaryPart =>
    rw [gnp_bin r hst] at h
    rw [← hst]
    rw [gnp_bin { r with buffer := r.buffer ++ Y } hst]
    exact get_binary_part_some_ext r r1 item b Y h
  | inPartLength =>
    rw [← hst]
    cases hread : read_part_length r with
    | error e =>
      rw [gnp_len_error r e hst hread] at h
      exact absurd h (by simp)
    | ok rA =>
      cases hstA : rA.state with
      | inPfx =>
        rw [gnp_len_pfxA r rA hst hread hstA] at h
        exact absurd h (by simp)
      | inPartLength =>
        rw [gnp_len_suspend r rA hst hread hstA] at h
        exact absurd h (by simp)
      | inBinaryPart =>
        rw [gnp_len_read r rA hst hread hstA] at h
        have hread2 := read_part_length_ext r rA Y hread hstA hst
        rw [gnp_len_read { r with buffer := r.buffer ++ Y } { rA with buffer := rA.buffer ++ Y } hst hread2 hstA]
        exact get_binary_part_some_ext rA r1 item b Y h

lemma get_next_part_none_ext (r r1 : StreamingChainReader) (b : Bool) (Y : List Nat)
    (h : get_next_part r = .ok (none, b, r1)) :
    get_next_part { r with buffer := r.buffer ++ Y } =
      get_next_part { r1 with buffer := r1.buffer ++ Y } := by
  cases hst : r.state with
  | inPfx =>
    rw [gnp_pfx r hst] at h
    obtain hEq := (getPfx_none_inv r r1 b h).1
    rw [← hst, hEq]
  | inBinaryPart =>
    rw [gnp_bin r hst] at h
    obtain hEq := (get_binary_part_none_inv r r1 b h).1
    rw [← hst, hEq]
  | inPartLength =>
    rw [← hst]
    cases hread : read_part_length r with
    | error e =>
      rw [gnp_len_error r e hst hread] at h
      exact absurd h (by simp)
    | ok rA =>
      cases hstA : rA.state with
      | inPfx =>
        rw [gnp_len_pfxA r rA hst hread hstA] at h
        simp only [Except.ok.injEq, Prod.mk.injEq] at h
        have hr1 : r1 = rA := h.2.2.symm
        rcases read_part_length_inv r rA hread with ⟨hEq, _⟩ | ⟨w, hpls, hw, hwlen, hmax, hrA⟩
        · rw [hr1, hEq]
        · rw [hrA] at hstA
          exact absurd hstA (by simp)
      | inPartLength =>
        rw [gnp_len_suspend r rA hst hread hstA] at h
        simp only [Except.ok.injEq, Prod.mk.injEq] at h
        have hr1 : r1 = rA := h.2.2.symm
        rcases read_part_length_inv r rA hread with ⟨hEq, _⟩ | ⟨w, hpls, hw, hwlen, hmax, hrA⟩
        · rw [hr1, hEq]
        · rw [hrA] at hstA
          exact absurd hstA (by simp)
      | inBinaryPart =>
        rw [gnp_len_read r rA hst hread hstA] at h
        obtain hEq := (get_binary_part_none_inv rA r1 b h).1
        rcases read_part_length_inv r rA hread with ⟨hEq2, _⟩ | ⟨w, hpls, hw, hwlen, hmax, hrA⟩
        · rw [hEq2, hst] at hstA
          exact absurd hstA (by simp)
        · have hread2 := read_part_length_ext r rA Y hread hstA hst
          rw [hEq]
          rw [gnp_len_read { r with buffer := r.buffer ++ Y } { rA with buffer := rA.buffer ++ Y } hst hread2 hstA]
          rw [gnp_bin { rA with buffer := rA.buffer ++ Y } hstA]

lemma getPfx_err_ext (r : StreamingChainReader) (e : Err) (Y : List Nat)
    (hoff : r.current_prefix_offset = 0)
    (h : getPfx r = .error e) :
    getPfx { r with buffer := r.buffer ++ Y } = .error e := by
  simp only [getPfx, hoff, List.drop_zero] at h ⊢
  cases hscan : scanPfx r.max_prefix_size r.buffer 0 with
  | error e2 =>
    simp only [hscan, Except.error.injEq] at h
    subst h
    simp only [scanPfx_error_ext _ _ Y _ _ hscan]
  | ok o =>
    cases o with
    | none => simp [hscan] at h
    | some idx =>
      simp only [hscan, List.getD_eq_getElem?_getD] at h
      cases hs : set_state_and_part_length_size_from_sop r (r.buffer[idx]?.getD 0) with
      | ok v =>
        rcases v with ⟨r2, b2⟩
        rw [hs] at h
        simp at h
      | error e2 =>
        rw [hs] at h
        simp only [Except.error.injEq] at h
        subst h
        have hlt : idx < r.buffer.length := by
          have := scanPfx_some_lt _ _ _ _ hscan
          omega
        have hgd : (r.buffer ++ Y).getD idx 0 = r.buffer.getD idx 0 :=
          getD_lt_append _ _ hlt
        have hs2 : set_state_and_part_length_size_from_sop r (r.buffer.getD idx 0) = .error e2 := by
          rw [List.getD_eq_getElem?_getD]
          exact hs
        have hs3 := setSop_ext_err r _ e2 (r.buffer ++ Y) hs2
        rw [hoff] at hs3
        simp only [scanPfx_found_ext _ _ Y _ _ hscan, hgd, hs3]

lemma get_binary_part_err_ext (r : StreamingChainReader) (e : Err) (Y : List Nat)
    (hbplInv : ∀ n, r.binary_part_length = some n → n ≤ r.max_part_size)
    (h : get_binary_part r = .error e) :
    get_binary_part { r with buffer := r.buffer ++ Y } = .error e := by
  simp only [get_binary_part] at h ⊢
  cases hbpl : r.binary_part_length with
  | none =>
    simp only [hbpl] at h ⊢
    exact h
  | some n =>
    have hn : n ≤ r.max_part_size := hbplInv n hbpl
    simp only [hbpl, List.getD_eq_getElem?_getD] at h ⊢
    split_ifs at h with h1 h2
    · cases hs : set_state_and_part_length_size_from_sop r (r.buffer[n]?.getD 0) with
      | ok v =>
        rcases v with ⟨r2, b2⟩
        rw [hs] at h
        simp at h
      | error e2 =>
        rw [hs] at h
        simp only [Except.error.injEq] at h
        subst h
        have h1E : n + 1 ≤ (r.buffer ++ Y).length := by
          simp only [List.length_append]
          omega
        have hgd : (r.buffer ++ Y)[n]?.getD 0 = r.buffer[n]?.getD 0 := by
          rw [← List.getD_eq_getElem?_getD, ← List.getD_eq_getElem?_getD]
          exact getD_lt_append _ _ (by omega)
        have hs2 : set_state_and_part_length_size_from_sop r (r.buffer[n]?.getD 0) = .error e2 := hs
        have hs3 := setSop_ext_err r _ e2 (r.buffer ++ Y) hs2
        rw [hbpl] at hs3
        rw [if_pos h1E, hgd]
        simp only [hs3]
    · omega

lemma read_part_length_err_ext (r : StreamingChainReader) (e : Err) (Y : List Nat)
    (h : read_part_length r = .error e) :
    read_part_length { r with buffer := r.buffer ++ Y } = .error e := by
  simp only [read_part_length] at h ⊢
  cases hpls : r.part_length_size with
  | none =>
    simp only [hpls] at h ⊢
    exact h
  | some w =>
    simp only [hpls] at h ⊢
    split_ifs at h with h1 h2 h3
    · rw [if_pos h1]
      exact h
    · have h2E : w ≤ (r.buffer ++ Y).length := by
        simp only [List.length_append]
        omega
      rw [if_neg h1, if_pos h2E, take_le_append _ _ h2, if_pos h3]
      exact h

lemma get_next_part_err_ext (r : StreamingChainReader) (e : Err) (Y : List Nat)
    (hoff : r.current_prefix_offset = 0)
    (hbplInv : ∀ n, r.binary_part_length = some n → n ≤ r.max_part_size)
    (h : get_next_part r = .error e) :
    get_next_part { r with buffer := r.buffer ++ Y } = .error e := by
  cases hst : r.state with
  | inPfx =>
    rw [gnp_pfx r hst] at h
    rw [← hst]
    rw [gnp_pfx { r with buffer := r.buffer ++ Y } hst]
    exact getPfx_err_ext r e Y hoff h
  | inBinaryPart =>
    rw [gnp_bin r hst] at h
    rw [← hst]
    rw [gnp_bin { r with buffer := r.buffer ++ Y } hst]
    exact get_binary_part_err_ext r e Y hbplInv h
  | inPartLength =>
    rw [← hst]
    cases hread : read_part_length r with
    | error e2 =>
      rw [gnp_len_error r e2 hst hread] at h
      simp only [Except.error.injEq] at h
      subst h
      exact gnp_len_error { r with buffer := r.buffer ++ Y } e2 hst
        (read_part_length_err_ext r e2 Y hread)
    | ok rA =>
      cases hstA : rA.state with
      | inPfx =>
        rw [gnp_len_pfxA r rA hst hread hstA] at h
        exact absurd h (by simp)
      | inPartLength =>
        rw [gnp_len_suspend r rA hst hread hstA] at h
        exact absurd h (by simp)
      | inBinaryPart =>
        rw [gnp_len_read r rA hst hread hstA] at h
        rcases read_part_length_inv r rA hread with ⟨hEq2, _⟩ | ⟨w, hpls, hw, hwlen, hmax, hrA⟩
        · rw [hEq2, hst] at hstA
          exact absurd hstA (by simp)
        · have hInvA : ∀ n, rA.binary_part_length = some n → n ≤ rA.max_part_size := by
            intro n hn
            rw [hrA] at hn
            simp only [Option.some.injEq] at hn
            rw [hrA]
            simp only
            omega
          have hread2 := read_part_length_ext r rA Y hread hstA hst
          rw [gnp_len_read { r with buffer := r.buffer ++ Y } { rA with buffer := rA.buffer ++ Y } hst hread2 hstA]
          exact get_binary_part_err_ext rA e Y hInvA h

lemma getPfx_bplInv (r r1 : StreamingChainReader) (opt : Option ChainItem) (b : Bool)
    (hInv : ∀ n, r.binary_part_length = some n → n ≤ r.max_part_size)
    (h : getPfx r = .ok (opt, b, r1)) :
    ∀ n, r1.binary_part_length = some n → n ≤ r1.max_part_size := by
  have hmps : r1.max_part_size = r.max_part_size := (getPfx_sameCfg r opt b r1 h).1
  cases opt with
  | none =>
    obtain ⟨hEq, _⟩ := getPfx_none_inv r r1 b h
    rw [hEq]
    exact hInv
  | some item =>
    obtain ⟨idx, r2, hscan, hs, hit, hr1⟩ := getPfx_some_inv r r1 item b h
    intro n hn
    rw [hmps]
    rw [hr1] at hn
    have hn2 : r2.binary_part_length = some n := hn
    rcases setSop_bpl r _ r2 b hs with hcase | hcase
    · exact hInv n (by rw [← hcase]; exact hn2)
    · rw [hcase] at hn2
      simp only [Option.some.injEq] at hn2
      omega

lemma get_binary_part_bplInv (r r1 : StreamingChainReader) (opt : Option ChainItem)
    (b : Bool)
    (hInv : ∀ n, r.binary_part_length = some n → n ≤ r.max_part_size)
    (h : get_binary_part r = .ok (opt, b, r1)) :
    ∀ n, r1.binary_part_length = some n → n ≤ r1.max_part_size := by
  have hmps : r1.max_part_size = r.max_part_size := (get_binary_part_sameCfg r opt b r1 h).1
  cases opt with
  | none =>
    obtain ⟨hEq, _, _⟩ := get_binary_part_none_inv r r1 b h
    rw [hEq]
    exact hInv
  | some item =>
    obtain ⟨m, r2, hbpl, hlen, hs, hit, hr1⟩ := get_binary_part_some_inv r r1 item b h
    intro n hn
    rw [hmps]
    rw [hr1] at hn
    have hn2 : r2.binary_part_length = some n := hn
    rcases setSop_bpl r _ r2 b hs with hcase | hcase
    · exact hInv n (by rw [← hcase]; exact hn2)
    · rw [hcase] at hn2
      simp only [Option.some.injEq] at hn2
      omega

lemma read_part_length_bplInv (r r1 : StreamingChainReader)
    (hInv : ∀ n, r.binary_part_length = some n → n ≤ r.max_part_size)
    (h : read_part_length r = .ok r1) :
    ∀ n, r1.binary_part_length = some n → n ≤ r1.max_part_size := by
  rcases read_part_length_inv r r1 h with ⟨hEq, _⟩ | ⟨w, hpls, hw, hwlen, hmax, hr1⟩
  · rw [hEq]
    exact hInv
  · intro n hn
    rw [hr1] at hn
    have hn2 : some (fromBytesBE (r.buffer.take w)) = some n := hn
    simp only [Option.some.injEq] at hn2
    rw [hr1]
    show n ≤ r.max_part_size
    omega

lemma get_next_part_pres (r r1 : StreamingChainReader) (opt : Option ChainItem)
    (b : Bool) (hInv : RInv r) (h : get_next_part r = .ok (opt, b, r1)) :
    RInv r1 := by
  obtain ⟨hoff, hb⟩ := hInv
  have hcfg := get_next_part_sameCfg r opt b r1 h
  refine ⟨by rw [hcfg.2.2.2.2.1, hoff], ?_⟩
  cases hst : r.state with
  | inPfx =>
    rw [gnp_pfx r hst] at h
    exact getPfx_bplInv r r1 opt b hb h
  | inBinaryPart =>
    rw [gnp_bin r hst] at h
    exact get_binary_part_bplInv r r1 opt b hb h
  | inPartLength =>
    cases hread : read_part_length r with
    | error e =>
      rw [gnp_len_error r e hst hread] at h
      exact absurd h (by simp)
    | ok rA =>
      have hbA := read_part_length_bplInv r rA hb hread
      cases hstA : rA.state with
      | inPfx =>
        rw [gnp_len_pfxA r rA hst hread hstA] at h
        simp only [Except.ok.injEq, Prod.mk.injEq] at h
        rw [← h.2.2]
        exact hbA
      | inPartLength =>
        rw [gnp_len_suspend r rA hst hread hstA] at h
        simp only [Except.ok.injEq, Prod.mk.injEq] at h
        rw [← h.2.2]
        exact hbA
      | inBinaryPart =>
        rw [gnp_len_read r rA hst hread hstA] at h
        exact get_binary_part_bplInv rA r1 opt b hbA h

lemma get_next_part_quiescent (r r1 : StreamingChainReader) (b : Bool)
    (h : get_next_part r = .ok (none, b, r1)) :
    get_next_part r1 = .ok (none, false, r1) := by
  cases hst : r.state with
  | inPfx =>
    rw [gnp_pfx r hst] at h
    obtain ⟨hEq, hb⟩ := getPfx_none_inv r r1 b h
    subst hb
    rw [hEq] at h ⊢
    rw [gnp_pfx r hst]
    exact h
  | inBinaryPart =>
    rw [gnp_bin r hst] at h
    obtain ⟨hEq, hb, _⟩ := get_binary_part_none_inv r r1 b h
    subst hb
    rw [hEq] at h ⊢
    rw [gnp_bin r hst]
    exact h
  | inPartLength =>
    cases hread : read_part_length r with
    | error e =>
      rw [gnp_len_error r e hst hread] at h
      exact absurd h (by simp)
    | ok rA =>
      cases hstA : rA.state with
      | inPfx =>
        rcases read_part_length_inv r rA hread with ⟨hEq, _⟩ | ⟨w, hpls, hw, hwlen, hmax, hrA⟩
        · rw [hEq, hst] at hstA
          exact absurd hstA (by simp)
        · rw [hrA] at hstA
          exact absurd hstA (by simp)
      | inPartLength =>
        rw [gnp_len_suspend r rA hst hread hstA] at h
        simp only [Except.ok.injEq, Prod.mk.injEq] at h
        have hr1 : r1 = rA := h.2.2.symm
        rcases read_part_length_inv r rA hread with ⟨hEq, _⟩ | ⟨w, hpls, hw, hwlen, hmax, hrA⟩
        · rw [hr1, hEq]
          have hres := gnp_len_suspend r rA hst hread hstA
          rw [hEq] at hres
          exact hres
        · rw [hrA] at hstA
          exact absurd hstA (by simp)
      | inBinaryPart =>
        rw [gnp_len_read r rA hst hread hstA] at h
        obtain ⟨hEq, hb, _⟩ := get_binary_part_none_inv rA r1 b h
        subst hb
        rw [hEq] at h ⊢
        rw [gnp_bin rA hstA]
        exact h

lemma runItems_final : ∀ (N : Nat) (r : StreamingChainReader),
    r.buffer.length < N → ∀ items rF, runItems r = (items, rF, none) →
    get_next_part rF = .ok (none, false, rF) := by
  intro N
  induction N with
  | zero =>
    intro r hN
    exact absurd hN (by omega)
  | succ N ih =>
    intro r hN items rF h
    cases hstep : get_next_part r with
    | error e =>
      rw [runItems_error r e hstep] at h
      simp at h
    | ok v =>
      rcases v with ⟨opt, at_end, r1⟩
      cases opt with
      | none =>
        rw [runItems_none r r1 at_end hstep] at h
        simp only [Prod.mk.injEq] at h
        rw [← h.2.1]
        exact get_next_part_quiescent r r1 at_end hstep
      | some item =>
        have hdec := get_next_part_some_dec r r1 item at_end hstep
        cases hsz : limitViolated r1.max_chain_size (r1.chain_size + itemLen item) with
        | true =>
          rw [runItems_size_err r r1 item at_end hstep hsz] at h
          simp at h
        | false =>
          cases hln : lengthViolated r1.max_chain_length (r1.chain_length + 1) with
          | true =>
            rw [runItems_len_err r r1 item at_end hstep hsz hln] at h
            simp at h
          | false =>
            cases at_end with
            | true =>
              rw [runItems_step_end r r1 item hstep hsz hln] at h
              simp only [Prod.mk.injEq] at h
              have h2 : runItems { r1 with chain_size := 0, chain_length := -1 } = ((runItems { r1 with chain_size := 0, chain_length := -1 }).1, rF, none) := by
                rw [← h.2]
              exact ih { r1 with chain_size := 0, chain_length := -1 } (by show r1.buffer.length < N; omega) _ _ h2
            | false =>
              rw [runItems_step_mid r r1 item hstep hsz hln] at h
              simp only [Prod.mk.injEq] at h
              have h2 : runItems { r1 with chain_size := r1.chain_size + itemLen item, chain_length := r1.chain_length + 1 } = ((runItems { r1 with chain_size := r1.chain_size + itemLen item, chain_length := r1.chain_length + 1 }).1, rF, none) := by
                rw [← h.2]
              exact ih { r1 with chain_size := r1.chain_size + itemLen item, chain_length := r1.chain_length + 1 } (by show r1.buffer.length < N; omega) _ _ h2

lemma runItems_pres : ∀ (N : Nat) (r : StreamingChainReader),
    r.buffer.length < N → RInv r → ∀ items rF, runItems r = (items, rF, none) →
    RInv rF := by
  intro N
  induction N with
  | zero =>
    intro r hN
    exact absurd hN (by omega)
  | succ N ih =>
    intro r hN hInv items rF h
    cases hstep : get_next_part r with
    | error e =>
      rw [runItems_error r e hstep] at h
      simp at h
    | ok v =>
      rcases v with ⟨opt, at_end, r1⟩
      have hInv1 : RInv r1 := get_next_part_pres r r1 opt at_end hInv hstep
      cases opt with
      | none =>
        rw [runItems_none r r1 at_end hstep] at h
        simp only [Prod.mk.injEq] at h
        rw [← h.2.1]
        exact hInv1
      | some item =>
        have hdec := get_next_part_some_dec r r1 item at_end hstep
        cases hsz : limitViolated r1.max_chain_size (r1.chain_size + itemLen item) with
        | true =>
          rw [runItems_size_err r r1 item at_end hstep hsz] at h
          simp at h
        | false =>
          cases hln : lengthViolated r1.max_chain_length (r1.chain_length + 1) with
          | true =>
            rw [runItems_len_err r r1 item at_end hstep hsz hln] at h
            simp at h
          | false =>
            cases at_end with
            | true =>
              rw [runItems_step_end r r1 item hstep hsz hln] at h
              simp only [Prod.mk.injEq] at h
              have h2 : runItems { r1 with chain_size := 0, chain_length := -1 } = ((runItems { r1 with chain_size := 0, chain_length := -1 }).1, rF, none) := by
                rw [← h.2]
              exact ih { r1 with chain_size := 0, chain_length := -1 } (by show r1.buffer.length < N; omega) (by exact hInv1) _ _ h2
            | false =>
              rw [runItems_step_mid r r1 item hstep hsz hln] at h
              simp only [Prod.mk.injEq] at h
              have h2 : runItems { r1 with chain_size := r1.chain_size + itemLen item, chain_length := r1.chain_length + 1 } = ((runItems { r1 with chain_size := r1.chain_size + itemLen item, chain_length := r1.chain_length + 1 }).1, rF, none) := by
                rw [← h.2]
              exact ih { r1 with chain_size := r1.chain_size + itemLen item, chain_length := r1.chain_length + 1 } (by show r1.buffer.length < N; omega) (by exact hInv1) _ _ h2

lemma runItems_congr (a b : StreamingChainReader)
    (h : get_next_part a = get_next_part b) :
    (runItems a).1 = (runItems b).1 ∧ (runItems a).2.2 = (runItems b).2.2 ∧
    ((runItems b).2.2 = none → (runItems a).2.1 = (runItems b).2.1) := by
  cases hga : get_next_part a with
  | error e =>
    have hgb : get_next_part b = .error e := by rw [← h, hga]
    rw [runItems_error a e hga, runItems_error b e hgb]
    exact ⟨rfl, rfl, fun hc => absurd hc (by simp)⟩
  | ok v =>
    rcases v with ⟨opt, at_end, r1⟩
    have hgb : get_next_part b = .ok (opt, at_end, r1) := by rw [← h, hga]
    cases opt with
    | none =>
      rw [runItems_none a r1 at_end hga, runItems_none b r1 at_end hgb]
      exact ⟨rfl, rfl, fun _ => rfl⟩
    | some item =>
      cases hsz : limitViolated r1.max_chain_size (r1.chain_size + itemLen item) with
      | true =>
        rw [runItems_size_err a r1 item at_end hga hsz,
          runItems_size_err b r1 item at_end hgb hsz]
        exact ⟨rfl, rfl, fun hc => absurd hc (by simp)⟩
      | false =>
        cases hln : lengthViolated r1.max_chain_length (r1.chain_length + 1) with
        | true =>
          rw [runItems_len_err a r1 item at_end hga hsz hln,
            runItems_len_err b r1 item at_end hgb hsz hln]
          exact ⟨rfl, rfl, fun hc => absurd hc (by simp)⟩
        | false =>
          cases at_end with
          | true =>
            rw [runItems_step_end a r1 item hga hsz hln,
              runItems_step_end b r1 item hgb hsz hln]
            exact ⟨rfl, rfl, fun _ => rfl⟩
          | false =>
            rw [runItems_step_mid a r1 item hga hsz hln,
              runItems_step_mid b r1 item hgb hsz hln]
            exact ⟨rfl, rfl, fun _ => rfl⟩

lemma runItems_ext : ∀ (N : Nat) (r : StreamingChainReader),
    r.buffer.length < N → RInv r →
    ∀ items r1 (Y : List Nat), runItems r = (items, r1, none) →
    (runItems { r with buffer := r.buffer ++ Y }).1 = items ++ (runItems { r1 with buffer := r1.buffer ++ Y }).1 ∧
    (runItems { r with buffer := r.buffer ++ Y }).2.2 = (runItems { r1 with buffer := r1.buffer ++ Y }).2.2 ∧
    ((runItems { r1 with buffer := r1.buffer ++ Y }).2.2 = none →
      (runItems { r with buffer := r.buffer ++ Y }).2.1 = (runItems { r1 with buffer := r1.buffer ++ Y }).2.1) := by
  intro N
  induction N with
  | zero =>
    intro r hN
    exact absurd hN (by omega)
  | succ N ih =>
    intro r hN hInv items r1 Y h
    cases hstep : get_next_part r with
    | error e =>
      rw [runItems_error r e hstep] at h
      simp at h
    | ok v =>
      rcases v with ⟨opt, at_end, rA⟩
      cases opt with
      | none =>
        rw [runItems_none r rA at_end hstep] at h
        simp only [Prod.mk.injEq] at h
        obtain ⟨hitems, hr1, -⟩ := h
        have hcong := runItems_congr { r with buffer := r.buffer ++ Y }
          { rA with buffer := rA.buffer ++ Y } (get_next_part_none_ext r rA at_end Y hstep)
        rw [← hitems, ← hr1]
        simpa using hcong
      | some item =>
        have hdec := get_next_part_some_dec r rA item at_end hstep
        have hInvA : RInv rA := get_next_part_pres r rA (some item) at_end hInv hstep
        have hstepE := get_next_part_some_ext r rA item at_end Y hInv.1 hstep
        cases hsz : limitViolated rA.max_chain_size (rA.chain_size + itemLen item) with
        | true =>
          rw [runItems_size_err r rA item at_end hstep hsz] at h
          simp at h
        | false =>
          cases hln : lengthViolated rA.max_chain_length (rA.chain_length + 1) with
          | true =>
            rw [runItems_len_err r rA item at_end hstep hsz hln] at h
            simp at h
          | false =>
            cases at_end with
            | true =>
              rw [runItems_step_end r rA item hstep hsz hln] at h
              simp only [Prod.mk.injEq] at h
              obtain ⟨hitems, hrest⟩ := h
              have h3 : runItems { rA with chain_size := 0, chain_length := -1 } = ((runItems { rA with chain_size := 0, chain_length := -1 }).1, r1, none) := by
                rw [← hrest]
              have ihh := ih { rA with chain_size := 0, chain_length := -1 }
                (by show rA.buffer.length < N; omega) (by exact hInvA) _ r1 Y h3
              rw [runItems_step_end { r with buffer := r.buffer ++ Y } { rA with buffer := rA.buffer ++ Y } item hstepE hsz hln]
              have hsw : ({ ({ rA with buffer := rA.buffer ++ Y } : StreamingChainReader) with chain_size := 0, chain_length := -1 } : StreamingChainReader) = { ({ rA with chain_size := 0, chain_length := -1 } : StreamingChainReader) with buffer := ({ rA with chain_size := 0, chain_length := -1 } : StreamingChainReader).buffer ++ Y } := rfl
              rw [hsw, ← hitems]
              refine ⟨?_, ihh.2.1, ihh.2.2⟩
              simp [ihh.1]
            | false =>
              rw [runItems_step_mid r rA item hstep hsz hln] at h
              simp only [Prod.mk.injEq] at h
              obtain ⟨hitems, hrest⟩ := h
              have h3 : runItems { rA with chain_size := rA.chain_size + itemLen item, chain_length := rA.chain_length + 1 } = ((runItems { rA with chain_size := rA.chain_size + itemLen item, chain_length := rA.chain_length + 1 }).1, r1, none) := by
                rw [← hrest]
              have ihh := ih { rA with chain_size := rA.chain_size + itemLen item, chain_length := rA.chain_length + 1 }
                (by show rA.buffer.length < N; omega) (by exact hInvA) _ r1 Y h3
              rw [runItems_step_mid { r with buffer := r.buffer ++ Y } { rA with buffer := rA.buffer ++ Y } item hstepE hsz hln]
              have hsw : ({ ({ rA with buffer := rA.buffer ++ Y } : StreamingChainReader) with chain_size := ({ rA with buffer := rA.buffer ++ Y } : StreamingChainReader).chain_size + itemLen item, chain_length := ({ rA with buffer := rA.buffer ++ Y } : StreamingChainReader).chain_length + 1 } : StreamingChainReader) = { ({ rA with chain_size := rA.chain_size + itemLen item, chain_length := rA.chain_length + 1 } : StreamingChainReader) with buffer := ({ rA with chain_size := rA.chain_size + itemLen item, chain_length := rA.chain_length + 1 } : StreamingChainReader).buffer ++ Y } := rfl
              rw [hsw, ← hitems]
              refine ⟨?_, ihh.2.1, ihh.2.2⟩
              simp [ihh.1]

lemma runItems_ext_err : ∀ (N : Nat) (r : StreamingChainReader),
    r.buffer.length < N → RInv r →
    ∀ items rF e (Y : List Nat), runItems r = (items, rF, some e) →
    (runItems { r with buffer := r.buffer ++ Y }).1 = items ∧
    (runItems { r with buffer := r.buffer ++ Y }).2.2 = some e := by
  intro N
  induction N with
  | zero =>
    intro r hN
    exact absurd hN (by omega)
  | succ N ih =>
    intro r hN hInv items rF e Y h
    cases hstep : get_next_part r with
    | error e0 =>
      rw [runItems_error r e0 hstep] at h
      simp only [Prod.mk.injEq] at h
      have hE := get_next_part_err_ext r e0 Y hInv.1 hInv.2 hstep
      rw [runItems_error { r with buffer := r.buffer ++ Y } e0 hE]
      exact ⟨h.1, h.2.2⟩
    | ok v =>
      rcases v with ⟨opt, at_end, rA⟩
      cases opt with
      | none =>
        rw [runItems_none r rA at_end hstep] at h
        simp at h
      | some item =>
        have hdec := get_next_part_some_dec r rA item at_end hstep
        have hInvA : RInv rA := get_next_part_pres r rA (some item) at_end hInv hstep
        have hstepE := get_next_part_some_ext r rA item at_end Y hInv.1 hstep
        cases hsz : limitViolated rA.max_chain_size (rA.chain_size + itemLen item) with
        | true =>
          rw [runItems_size_err r rA item at_end hstep hsz] at h
          simp only [Prod.mk.injEq] at h
          rw [runItems_size_err { r with buffer := r.buffer ++ Y } { rA with buffer := rA.buffer ++ Y } item at_end hstepE hsz]
          exact ⟨h.1, h.2.2⟩
        | false =>
          cases hln : lengthViolated rA.max_chain_length (rA.chain_length + 1) with
          | true =>
            rw [runItems_len_err r rA item at_end hstep hsz hln] at h
            simp only [Prod.mk.injEq] at h
            rw [runItems_len_err { r with buffer := r.buffer ++ Y } { rA with buffer := rA.buffer ++ Y } item at_end hstepE hsz hln]
            exact ⟨h.1, h.2.2⟩
          | false =>
            cases at_end with
            | true =>
              rw [runItems_step_end r rA item hstep hsz hln] at h
              simp only [Prod.mk.injEq] at h
              obtain ⟨hitems, hrest⟩ := h
              have h3 : runItems { rA with chain_size := 0, chain_length := -1 } = ((runItems { rA with chain_size := 0, chain_length := -1 }).1, rF, some e) := by
                rw [← hrest]
              have ihh := ih { rA with chain_size := 0, chain_length := -1 }
                (by show rA.buffer.length < N; omega) (by exact hInvA) _ rF e Y h3
              rw [runItems_step_end { r with buffer := r.buffer ++ Y } { rA with buffer := rA.buffer ++ Y } item hstepE hsz hln]
              have hsw : ({ ({ rA with buffer := rA.buffer ++ Y } : StreamingChainReader) with chain_size := 0, chain_length := -1 } : StreamingChainReader) = { ({ rA with chain_size := 0, chain_length := -1 } : StreamingChainReader) with buffer := ({ rA with chain_size := 0, chain_length := -1 } : StreamingChainReader).buffer ++ Y } := rfl
              rw [hsw, ← hitems]
              exact ⟨by simp [ihh.1], ihh.2⟩
            | false =>
              rw [runItems_step_mid r rA item hstep hsz hln] at h
              simp only [Prod.mk.injEq] at h
              obtain ⟨hitems, hrest⟩ := h
              have h3 : runItems { rA with chain_size := rA.chain_size + itemLen item, chain_length := rA.chain_length + 1 } = ((runItems { rA with chain_size := rA.chain_size + itemLen item, chain_length := rA.chain_length + 1 }).1, rF, some e) := by
                rw [← hrest]
              have ihh := ih { rA with chain_size := rA.chain_size + itemLen item, chain_length := rA.chain_length + 1 }
                (by show rA.buffer.length < N; omega) (by exact hInvA) _ rF e Y h3
              rw [runItems_step_mid { r with buffer := r.buffer ++ Y } { rA with buffer := rA.buffer ++ Y } item hstepE hsz hln]
              have hsw : ({ ({ rA with buffer := rA.buffer ++ Y } : StreamingChainReader) with chain_size := ({ rA with buffer := rA.buffer ++ Y } : StreamingChainReader).chain_size + itemLen item, chain_length := ({ rA with buffer := rA.buffer ++ Y } : StreamingChainReader).chain_length + 1 } : StreamingChainReader) = { ({ rA with chain_size := rA.chain_size + itemLen item, chain_length := rA.chain_length + 1 } : StreamingChainReader) with buffer := ({ rA with chain_size := rA.chain_size + itemLen item, chain_length := rA.chain_length + 1 } : StreamingChainReader).buffer ++ Y } := rfl
              rw [hsw, ← hitems]
              exact ⟨by simp [ihh.1], ihh.2⟩

/-- Feeding the chunks of a segmentation one call at a time is equivalent to
one call carrying all the bytes: same fragment stream, same error, and (when
no error is raised) the same final reader state. -/
lemma feedAll_runItems : ∀ (chunks : List (List Nat)) (r : StreamingChainReader),
    RInv r → get_next_part r = .ok (none, false, r) →
    (∀ c ∈ chunks, c ≠ []) →
    (feedAll r chunks).1 = (runItems { r with buffer := r.buffer ++ catMap id chunks }).1 ∧
    (feedAll r chunks).2.2 = (runItems { r with buffer := r.buffer ++ catMap id chunks }).2.2 ∧
    ((runItems { r with buffer := r.buffer ++ catMap id chunks }).2.2 = none →
      (feedAll r chunks).2.1 = (runItems { r with buffer := r.buffer ++ catMap id chunks }).2.1) := by
  intro chunks
  induction chunks with
  | nil =>
    intro r hInv hq _
    have hrr : ({ r with buffer := r.buffer ++ catMap id [] } : StreamingChainReader) = r := by
      show ({ r with buffer := r.buffer ++ [] } : StreamingChainReader) = r
      rw [List.append_nil]
    rw [hrr, runItems_none r r false hq]
    exact ⟨rfl, rfl, fun _ => rfl⟩
  | cons c rest ihc =>
    intro r hInv hq hne
    have hc : c ≠ [] := hne c (by simp)
    have hgci : r.get_chain_items c = runItems { r with buffer := r.buffer ++ c } := by
      simp only [StreamingChainReader.get_chain_items, if_neg hc]
    have hassoc : ({ ({ r with buffer := r.buffer ++ c } : StreamingChainReader) with buffer := ({ r with buffer := r.buffer ++ c } : StreamingChainReader).buffer ++ catMap id rest } : StreamingChainReader) = { r with buffer := r.buffer ++ catMap id (c :: rest) } := by
      show ({ r with buffer := r.buffer ++ c ++ catMap id rest } : StreamingChainReader) = _
      rw [List.append_assoc]
      rfl
    have hInvX : RInv { r with buffer := r.buffer ++ c } := by exact hInv
    rcases hR : runItems { r with buffer := r.buffer ++ c } with ⟨items1, r1, err1⟩
    cases err1 with
    | some e =>
      have hfa : feedAll r (c :: rest) = (items1, r1, some e) := by
        simp only [feedAll, hgci, hR]
      have hEE := runItems_ext_err ((r.buffer ++ c).length + 1)
        { r with buffer := r.buffer ++ c } (by show (r.buffer ++ c).length < _; omega)
        hInvX items1 r1 e (catMap id rest) hR
      rw [hassoc] at hEE
      rw [hfa]
      refine ⟨hEE.1.symm, hEE.2.symm, ?_⟩
      intro hcontra
      rw [hEE.2] at hcontra
      exact absurd hcontra (by simp)
    | none =>
      have hfa : feedAll r (c :: rest) = (items1 ++ (feedAll r1 rest).1, (feedAll r1 rest).2) := by
        simp only [feedAll, hgci, hR]
      have hInv1 : RInv r1 := runItems_pres ((r.buffer ++ c).length + 1) _
        (by show (r.buffer ++ c).length < _; omega) hInvX items1 r1 hR
      have hq1 : get_next_part r1 = .ok (none, false, r1) :=
        runItems_final ((r.buffer ++ c).length + 1) _
          (by show (r.buffer ++ c).length < _; omega) items1 r1 hR
      have hih := ihc r1 hInv1 hq1 (fun x hx => hne x (by simp [hx]))
      have hEXT := runItems_ext ((r.buffer ++ c).length + 1)
        { r with buffer := r.buffer ++ c } (by show (r.buffer ++ c).length < _; omega)
        hInvX items1 r1 (catMap id rest) hR
      rw [hassoc] at hEXT
      rw [hfa]
      refine ⟨?_, ?_, ?_⟩
      · rw [hih.1, hEXT.1]
      · rw [hih.2.1, hEXT.2.1]
      · intro hnone
        have h1 : (runItems { r1 with buffer := r1.buffer ++ catMap id rest }).2.2 = none := by
          rw [← hEXT.2.1]
          exact hnone
        rw [hih.2.2 h1, hEXT.2.2 h1]

lemma splitPre (R S A B : List Nat) (h : R ++ S = A ++ B)
    (hlen : A.length ≤ R.length) :
    ∃ R2, R = A ++ R2 ∧ R2 ++ S = B := by
  have hA : R.take A.length = A := by
    have ht := congrArg (List.take A.length) h
    rw [take_le_append R S hlen, take_len_append A B] at ht
    exact ht
  refine ⟨R.drop A.length, ?_, ?_⟩
  · conv_lhs => rw [← List.take_append_drop A.length R]
    rw [hA]
  · have h2 : R.take A.length ++ R.drop A.length ++ S = A ++ B := by
      rw [List.take_append_drop]
      exact h
    rw [hA, List.append_assoc] at h2
    exact List.append_cancel_left h2

lemma catMap_append (f : α → List Nat) (a b : List α) :
    catMap f (a ++ b) = catMap f a ++ catMap f b := by
  induction a with
  | nil => rfl
  | cons x xs ih => simp [catMap, ih, List.append_assoc]

lemma runChainsB (csl : List BinaryChain) (mps : Nat) (mcs mcl mpre : Option Nat) :
    ∀ (stale : Option Nat) (B : List Nat), (∀ c ∈ csl, ChainOK mps mcs mcl mpre c) →
    ∃ stale2, runItems (cleanR mps mcs mcl mpre stale (chainsBytes csl ++ B)) = (chainsItems csl ++ (runItems (cleanR mps mcs mcl mpre stale2 B)).1, (runItems (cleanR mps mcs mcl mpre stale2 B)).2) := by
  induction csl with
  | nil =>
    intro stale B _
    refine ⟨stale, ?_⟩
    show runItems (cleanR mps mcs mcl mpre stale ([] ++ B)) = _
    rw [List.nil_append]
    show runItems (cleanR mps mcs mcl mpre stale B) = ((runItems (cleanR mps mcs mcl mpre stale B)).1, (runItems (cleanR mps mcs mcl mpre stale B)).2)
    rfl
  | cons c rest ih =>
    intro stale B hok
    have hc := hok c (by simp)
    have hbytes : chainsBytes (c :: rest) ++ B = chainBytes c ++ (chainsBytes rest ++ B) := by
      show (chainBytes c ++ chainsBytes rest) ++ B = _
      rw [List.append_assoc]
    rw [hbytes]
    obtain ⟨st2, h1⟩ := runChain c mps mcs mcl mpre stale (chainsBytes rest ++ B)
      hc.1 hc.2.1 hc.2.2.1 hc.2.2.2.1 hc.2.2.2.2
    obtain ⟨st3, h2⟩ := ih st2 B (fun x hx => hok x (by simp [hx]))
    refine ⟨st3, ?_⟩
    rw [h1, h2]
    have hgl : chainsItems (c :: rest) = chainItems c ++ chainsItems rest := rfl
    rw [hgl]
    simp [List.append_assoc]

lemma partEntryState_pos (mps : Nat) (mcs mcl mpre stale : Option Nat) (cs : Nat)
    (cl : Int) (p R : List Nat) (hp0 : p.length = 0) :
    partEntryState mps mcs mcl mpre stale cs cl p R = ⟨mps, mcs, mcl, mpre, .inBinaryPart, R, 0, some (wOf p), some p.length, cs, cl⟩ := by
  simp only [partEntryState, wOf, if_pos hp0]
  simp only [hp0]

lemma partEntryState_neg (mps : Nat) (mcs mcl mpre stale : Option Nat) (cs : Nat)
    (cl : Int) (p R : List Nat) (hp0 : ¬ p.length = 0) :
    partEntryState mps mcs mcl mpre stale cs cl p R = ⟨mps, mcs, mcl, mpre, .inPartLength, R, 0, some (widthOf p.length), stale, cs, cl⟩ := by
  simp only [partEntryState, if_neg hp0]

/-- Running the reader on a proper prefix of the byte region of a part list
(no optional limits configured) raises no error and leaves the reader in a
mid-chain state, never back in `IN_PREFIX`. -/
lemma runPartsPre : ∀ (N : Nat) (R : List Nat), R.length < N →
    ∀ (ps : List (List Nat)) (p : List Nat) (mps : Nat) (stale : Option Nat)
    (cs : Nat) (cl : Int) (S : List Nat), PartsFit mps (p :: ps) →
    R ++ S = tailEnc p ++ p ++ partsBytes ps → S ≠ [] →
    ∃ items rQ, runItems (partEntryState mps none none none stale cs cl p R) = (items, rQ, none) ∧ rQ.state ≠ PState.inPfx := by
  intro N
  induction N with
  | zero =>
    intro R hN
    exact absurd hN (by omega)
  | succ N ih =>
    intro R hN ps p mps stale cs cl S hfit hsplit hS
    have hpmps : p.length ≤ mps := (hfit p (by simp)).1
    have hple : p.length ≤ MAX64V := (hfit p (by simp)).2
    have key : (∃ w, ¬ p.length = 0 ∧ w = widthOf p.length ∧ R.length < w) ∨
        (∃ R2, R = tailEnc p ++ R2 ∧ R2 ++ S = p ++ partsBytes ps ∧
          get_next_part (partEntryState mps none none none stale cs cl p R) = get_binary_part ⟨mps, none, none, none, .inBinaryPart, R2, 0, some (wOf p), some p.length, cs, cl⟩) := by
      by_cases hp0 : p.length = 0
      · right
        have htE : tailEnc p = [] := by rw [tailEnc, if_pos hp0]
        refine ⟨R, by rw [htE, List.nil_append], ?_, ?_⟩
        · rw [htE, List.nil_append] at hsplit
          exact hsplit
        · rw [partEntryState_pos mps none none none stale cs cl p R hp0]
          exact gnp_bin _ rfl
      · by_cases hRw : R.length < widthOf p.length
        · left
          exact ⟨widthOf p.length, hp0, rfl, hRw⟩
        · right
          have hlen : (tailEnc p).length ≤ R.length := by
            rw [tailEnc, if_neg hp0, toBytesBE_length]
            omega
          obtain ⟨R2, h1, h2⟩ := splitPre R S (tailEnc p) (p ++ partsBytes ps)
            (by rw [hsplit, List.append_assoc]) hlen
          refine ⟨R2, h1, h2, ?_⟩
          have hdec : fromBytesBE (tailEnc p) = p.length := by
            rw [tailEnc, if_neg hp0]
            exact fromBytesBE_toBytesBE _ _ (lt_pow_widthOf hple)
          have hgl := gnp_len_to_bin (partEntryState mps none none none stale cs cl p R)
            (widthOf p.length) (tailEnc p) R2
            (by rw [partEntryState_neg mps none none none stale cs cl p R hp0])
            (by rw [partEntryState_neg mps none none none stale cs cl p R hp0])
            (by have := widthOf_pos p.length; omega)
            (by rw [partEntryState_neg mps none none none stale cs cl p R hp0]; exact h1)
            (by rw [tailEnc, if_neg hp0]; exact toBytesBE_length _ _)
            (by rw [hdec, partEntryState_neg mps none none none stale cs cl p R hp0]; exact hpmps)
          rw [hgl, hdec]
          congr 1
          rw [partEntryState_neg mps none none none stale cs cl p R hp0]
          simp only [wOf, if_neg hp0]
      -- end key
    rcases key with ⟨w, hp0, hwEq, hRw⟩ | ⟨R2, hR, hsplit2, hgnp⟩
    · -- too few bytes to read the length field: the call suspends in place
      have hE := partEntryState_neg mps none none none stale cs cl p R hp0
      have hread : read_part_length (partEntryState mps none none none stale cs cl p R) = .ok (partEntryState mps none none none stale cs cl p R) := by
        apply read_part_length_suspend _ w
        · rw [hE, hwEq]
        · rw [hwEq]
          have := widthOf_pos p.length
          omega
        · rw [hE]
          exact hRw
      have hstep : get_next_part (partEntryState mps none none none stale cs cl p R) = .ok (none, false, partEntryState mps none none none stale cs cl p R) :=
        gnp_len_suspend _ _ (by rw [hE]) hread (by rw [hE])
      refine ⟨[], partEntryState mps none none none stale cs cl p R, runItems_none _ _ _ hstep, ?_⟩
      rw [hE]
      simp
    · by_cases hR2 : R2.length < p.length + 1
      · -- payload (plus terminator) not fully buffered: suspend in the part
        have hsusp : get_binary_part ⟨mps, none, none, none, .inBinaryPart, R2, 0, some (wOf p), some p.length, cs, cl⟩ = .ok (none, false, ⟨mps, none, none, none, .inBinaryPart, R2, 0, some (wOf p), some p.length, cs, cl⟩) := by
          apply get_binary_part_suspend _ p.length rfl
          · exact hR2
          · show R2.length ≤ mps
            omega
        have hstep : get_next_part (partEntryState mps none none none stale cs cl p R) = .ok (none, false, ⟨mps, none, none, none, .inBinaryPart, R2, 0, some (wOf p), some p.length, cs, cl⟩) := by
          rw [hgnp, hsusp]
        refine ⟨[], _, runItems_none _ _ _ hstep, ?_⟩
        simp
      · -- the terminator byte of this part is buffered: a part is emitted
        obtain ⟨R2x, hR2eq, hsplit3⟩ := splitPre R2 S p (partsBytes ps) hsplit2 (by omega)
        cases hR2x : R2x with
        | nil =>
          rw [hR2x] at hR2eq
          have := congrArg List.length hR2eq
          simp at this
          omega
        | cons t R3 =>
          rw [hR2x] at hR2eq hsplit3
          cases ps with
          | nil =>
            exfalso
            rw [show partsBytes [] = [EOC_ORD] from rfl] at hsplit3
            cases S with
            | nil => exact absurd rfl hS
            | cons s St =>
              have := congrArg List.length hsplit3
              simp only [List.length_append, List.length_cons, List.length_nil] at this
              omega
          | cons q ps' =>
            have hqle : q.length ≤ MAX64V := (hfit q (by simp)).2
            rw [partsBytes_cons ps' hqle, List.cons_append] at hsplit3
            have ht : t = sopByte q := (List.cons.injEq _ _ _ _).mp hsplit3 |>.1
            have hsplit4 : R3 ++ S = tailEnc q ++ q ++ partsBytes ps' :=
              (List.cons.injEq _ _ _ _).mp hsplit3 |>.2
            have hfound := get_binary_part_found
              ⟨mps, none, none, none, .inBinaryPart, R2, 0, some (wOf p), some p.length, cs, cl⟩
              p.length p t R3 rfl (by exact hR2eq) rfl
            have hR3N : R3.length < N := by
              have := congrArg List.length hR2eq
              simp only [List.length_append, List.length_cons] at this
              have hRlen := congrArg List.length hR
              simp only [List.length_append] at hRlen
              omega
            have hfit2 : PartsFit mps (q :: ps') := fun x hx => hfit x (by simp [hx])
            by_cases hq0 : q.length = 0
            · have hsop : t = ZERO_SOP_ORD := by rw [ht, sopByte, if_pos hq0]
              rw [hsop, setSop_sop0] at hfound
              have hstep : get_next_part (partEntryState mps none none none stale cs cl p R) = .ok (some (.part p), false, ⟨mps, none, none, none, .inBinaryPart, R3, 0, some 0, some 0, cs, cl⟩) := by
                rw [hgnp, hfound]
              rw [runItems_step_mid _ _ _ hstep rfl rfl]
              have hconv : ({ (⟨mps, none, none, none, .inBinaryPart, R3, 0, some 0, some 0, cs, cl⟩ : StreamingChainReader) with chain_size := cs + itemLen (.part p), chain_length := cl + 1 } : StreamingChainReader) = partEntryState mps none none none (some 0) (cs + p.length) (cl + 1) q R3 := by
                simp only [partEntryState, if_pos hq0]
                rfl
              rw [hconv]
              obtain ⟨items, rQ, hrun, hstate⟩ := ih R3 hR3N ps' q mps (some 0)
                (cs + p.length) (cl + 1) S hfit2 hsplit4 hS
              refine ⟨.part p :: items, rQ, ?_, hstate⟩
              rw [hrun]
            · have hw2 : 1 ≤ widthOf q.length := widthOf_pos _
              have hw2' : widthOf q.length ≤ 8 := widthOf_le8 _
              have hsop : t = ZERO_SOP_ORD + widthOf q.length := by
                rw [ht, sopByte, if_neg hq0]
              rw [hsop, setSop_sopk _ _ hw2 hw2'] at hfound
              have hstep : get_next_part (partEntryState mps none none none stale cs cl p R) = .ok (some (.part p), false, ⟨mps, none, none, none, .inPartLength, R3, 0, some (widthOf q.length), some p.length, cs, cl⟩) := by
                rw [hgnp, hfound]
              rw [runItems_step_mid _ _ _ hstep rfl rfl]
              have hconv : ({ (⟨mps, none, none, none, .inPartLength, R3, 0, some (widthOf q.length), some p.length, cs, cl⟩ : StreamingChainReader) with chain_size := cs + itemLen (.part p), chain_length := cl + 1 } : StreamingChainReader) = partEntryState mps none none none (some p.length) (cs + p.length) (cl + 1) q R3 := by
                simp only [partEntryState, if_neg hq0]
                rfl
              rw [hconv]
              obtain ⟨items, rQ, hrun, hstate⟩ := ih R3 hR3N ps' q mps (some p.length)
                (cs + p.length) (cl + 1) S hfit2 hsplit4 hS
              refine ⟨.part p :: items, rQ, ?_, hstate⟩
              rw [hrun]

/-- Running the reader on a proper prefix of one chain's serialised bytes
(no optional limits) raises no error, and the state is complete exactly when
no byte of the chain has been fed yet. -/
lemma runChainPre (c : BinaryChain) (mps : Nat) (stale : Option Nat)
    (P S : List Nat)
    (hpre : ∀ b ∈ c.pfx, b < ZERO_SOP_ORD)
    (hfit : PartsFit mps c.parts)
    (hsplit : P ++ S = chainBytes c) (hS : S ≠ []) :
    ∃ items rP, runItems (cleanR mps none none none stale P) = (items, rP, none) ∧
      (rP.complete = true ↔ P = []) := by
  by_cases hP0 : P = []
  · subst hP0
    have hq : get_next_part (cleanR mps none none none stale []) = .ok (none, false, cleanR mps none none none stale []) := by
      rw [gnp_pfx _ rfl]
      exact getPfx_none _ rfl (by simp [cleanR]) (by simp [cleanR])
    refine ⟨[], _, runItems_none _ _ _ hq, ?_⟩
    simp [StreamingChainReader.complete, cleanR]
  · by_cases hPp : P.length ≤ c.pfx.length
    · obtain ⟨A2, hA2, _⟩ := splitPre c.pfx (partsBytes c.parts) P S hsplit.symm hPp
      have hlit : ∀ b ∈ P, b < ZERO_SOP_ORD := by
        intro b hb
        exact hpre b (by rw [hA2]; exact List.mem_append_left _ hb)
      have hq : get_next_part (cleanR mps none none none stale P) = .ok (none, false, cleanR mps none none none stale P) := by
        rw [gnp_pfx _ rfl]
        exact getPfx_none _ rfl hlit (fun j _ => rfl)
      refine ⟨[], _, runItems_none _ _ _ hq, ?_⟩
      show ((decide (PState.inPfx = PState.inPfx)) && P.isEmpty) = true ↔ P = []
      simp
    · push_neg at hPp
      obtain ⟨Q, hPQ, hQS⟩ := splitPre P S c.pfx (partsBytes c.parts) hsplit (by omega)
      have hQne : Q ≠ [] := by
        intro hq0
        rw [hq0, List.append_nil] at hPQ
        rw [hPQ] at hPp
        omega
      have hPne : P ≠ [] := hP0
      cases hparts : c.parts with
      | nil =>
        exfalso
        rw [hparts] at hQS
        rw [show partsBytes [] = [EOC_ORD] from rfl] at hQS
        cases Q with
        | nil => exact hQne rfl
        | cons t Qt =>
          cases S with
          | nil => exact hS rfl
          | cons s St =>
            have := congrArg List.length hQS
            simp only [List.length_append, List.length_cons, List.length_nil] at this
            omega
      | cons p ps' =>
        have hple : p.length ≤ MAX64V := by
          rw [hparts] at hfit
          exact (hfit p (by simp)).2
        rw [hparts, partsBytes_cons ps' hple] at hQS
        cases hQx : Q with
        | nil => exact absurd hQx hQne
        | cons t Q2 =>
          rw [hQx, List.cons_append] at hQS
          have ht : t = sopByte p := (List.cons.injEq _ _ _ _).mp hQS |>.1
          have hQ2S : Q2 ++ S = tailEnc p ++ p ++ partsBytes ps' :=
            (List.cons.injEq _ _ _ _).mp hQS |>.2
          have hbufeq : (cleanR mps none none none stale P).buffer = c.pfx ++ sopByte p :: Q2 := by
            show P = _
            rw [hPQ, hQx, ht]
          have hfound := getPfx_found (cleanR mps none none none stale P)
            c.pfx (sopByte p) Q2 rfl hbufeq hpre (fun j _ => rfl) (sopByte_ge p)
          have hfitP : PartsFit mps (p :: ps') := by
            rw [hparts] at hfit
            exact hfit
          by_cases hp0 : p.length = 0
          · have hsop : sopByte p = ZERO_SOP_ORD := by rw [sopByte, if_pos hp0]
            rw [hsop, setSop_sop0] at hfound
            have hstep : get_next_part (cleanR mps none none none stale P) = .ok (some (.pre c.pfx), false, ⟨mps, none, none, none, .inBinaryPart, Q2, 0, some 0, some 0, 0, -1⟩) := by
              rw [gnp_pfx _ rfl, hfound]
              rfl
            rw [runItems_step_mid _ _ _ hstep rfl rfl]
            have hconv : ({ (⟨mps, none, none, none, .inBinaryPart, Q2, 0, some 0, some 0, 0, -1⟩ : StreamingChainReader) with chain_size := 0 + itemLen (.pre c.pfx), chain_length := -1 + 1 } : StreamingChainReader) = partEntryState mps none none none (some 0) (0 + c.pfx.length) (-1 + 1) p Q2 := by
              simp only [partEntryState, if_pos hp0]
              rfl
            rw [hconv]
            obtain ⟨items, rQ, hrun, hstate⟩ := runPartsPre (Q2.length + 1) Q2 (by omega)
              ps' p mps (some 0) (0 + c.pfx.length) (-1 + 1) S hfitP hQ2S hS
            refine ⟨.pre c.pfx :: items, rQ, by rw [hrun], ?_⟩
            have hcomp : rQ.complete = false := by
              simp [StreamingChainReader.complete, hstate]
            rw [hcomp]
            simp [hPne]
          · have hw : 1 ≤ widthOf p.length := widthOf_pos _
            have hw' : widthOf p.length ≤ 8 := widthOf_le8 _
            have hsop : sopByte p = ZERO_SOP_ORD + widthOf p.length := by
              rw [sopByte, if_neg hp0]
            rw [hsop, setSop_sopk _ _ hw hw'] at hfound
            have hstep : get_next_part (cleanR mps none none none stale P) = .ok (some (.pre c.pfx), false, ⟨mps, none, none, none, .inPartLength, Q2, 0, some (widthOf p.length), stale, 0, -1⟩) := by
              rw [gnp_pfx _ rfl, hfound]
              rfl
            rw [runItems_step_mid _ _ _ hstep rfl rfl]
            have hconv : ({ (⟨mps, none, none, none, .inPartLength, Q2, 0, some (widthOf p.length), stale, 0, -1⟩ : StreamingChainReader) with chain_size := 0 + itemLen (.pre c.pfx), chain_length := -1 + 1 } : StreamingChainReader) = partEntryState mps none none none stale (0 + c.pfx.length) (-1 + 1) p Q2 := by
              simp only [partEntryState, if_neg hp0]
              rfl
            rw [hconv]
            obtain ⟨items, rQ, hrun, hstate⟩ := runPartsPre (Q2.length + 1) Q2 (by omega)
              ps' p mps stale (0 + c.pfx.length) (-1 + 1) S hfitP hQ2S hS
            refine ⟨.pre c.pfx :: items, rQ, by rw [hrun], ?_⟩
            have hcomp : rQ.complete = false := by
              simp [StreamingChainReader.complete, hstate]
            rw [hcomp]
            simp [hPne]

/-- Running the reader on an arbitrary prefix of a chain sequence's bytes
(no optional limits) raises no error, and the state is complete exactly when
the prefix ends on a chain boundary. -/
lemma runChainsPre : ∀ (csl : List BinaryChain) (mps : Nat) (stale : Option Nat)
    (P S : List Nat),
    (∀ c ∈ csl, (∀ b ∈ c.pfx, b < ZERO_SOP_ORD) ∧ PartsFit mps c.parts) →
    P ++ S = chainsBytes csl →
    ∃ items rP, runItems (cleanR mps none none none stale P) = (items, rP, none) ∧
      (rP.complete = true ↔ ∃ i, P = chainsBytes (csl.take i)) := by
  intro csl
  induction csl with
  | nil =>
    intro mps stale P S _ hsplit
    have hP0 : P = [] := by
      have := congrArg List.length hsplit
      simp only [List.length_append] at this
      have : P.length = 0 := by
        have h0 : (chainsBytes []).length = 0 := rfl
        omega
      exact List.length_eq_zero.mp this
    subst hP0
    have hq : get_next_part (cleanR mps none none none stale []) = .ok (none, false, cleanR mps none none none stale []) := by
      rw [gnp_pfx _ rfl]
      exact getPfx_none _ rfl (by simp [cleanR]) (by simp [cleanR])
    refine ⟨[], _, runItems_none _ _ _ hq, ?_⟩
    constructor
    · intro _
      exact ⟨0, rfl⟩
    · intro _
      rfl
  | cons c rest ih =>
    intro mps stale P S hok hsplit
    have hokc := hok c (by simp)
    have hokr : ∀ x ∈ rest, (∀ b ∈ x.pfx, b < ZERO_SOP_ORD) ∧ PartsFit mps x.parts :=
      fun x hx => hok x (by simp [hx])
    by_cases hlen : (chainBytes c).length ≤ P.length
    · obtain ⟨Pq, hPeq, hsplitq⟩ := splitPre P S (chainBytes c) (chainsBytes rest)
        (by rw [hsplit]; rfl) hlen
      obtain ⟨st2, h1⟩ := runChain c mps none none none stale Pq
        hokc.1 (fun j _ => rfl) hokc.2 rfl rfl
      obtain ⟨items, rP, hrun, hiff⟩ := ih mps st2 Pq S hokr hsplitq
      refine ⟨chainItems c ++ items, rP, ?_, ?_⟩
      · rw [hPeq]
        show runItems (cleanR mps none none none stale (chainBytes c ++ Pq)) = _
        rw [h1, hrun]
      · rw [hiff]
        constructor
        · rintro ⟨i, hi⟩
          refine ⟨i + 1, ?_⟩
          rw [hPeq, hi]
          rfl
        · rintro ⟨i, hi⟩
          cases i with
          | zero =>
            exfalso
            have hne := chainBytes_ne_nil c
            have hl0 := congrArg List.length hi
            have hzero : (chainsBytes (List.take 0 (c :: rest))).length = 0 := rfl
            have hPlen0 : P.length = 0 := by omega
            have : (chainBytes c).length = 0 := by omega
            exact hne (List.length_eq_zero.mp this)
          | succ i =>
            refine ⟨i, ?_⟩
            have hstep : chainsBytes (List.take (i + 1) (c :: rest)) = chainBytes c ++ chainsBytes (List.take i rest) := rfl
            rw [hstep] at hi
            have := hPeq.symm.trans hi
            exact List.append_cancel_left this
    · push_neg at hlen
      obtain ⟨R2, hceq, hcs⟩ := splitPre (chainBytes c) (chainsBytes rest) P S
        (by show chainsBytes (c :: rest) = P ++ S; exact hsplit.symm) (by omega)
      have hR2ne : R2 ≠ [] := by
        intro h0
        rw [h0, List.append_nil] at hceq
        rw [← hceq] at hlen
        omega
      obtain ⟨items, rP, hrun, hiff⟩ := runChainPre c mps stale P R2
        hokc.1 hokc.2 hceq.symm hR2ne
      refine ⟨items, rP, hrun, ?_⟩
      rw [hiff]
      constructor
      · intro hP0
        exact ⟨0, by rw [hP0]; rfl⟩
      · rintro ⟨i, hi⟩
        cases i with
        | zero =>
          exact hi
        | succ i =>
          exfalso
          have hlge := congrArg List.length hi
          have hstep : chainsBytes (List.take (i + 1) (c :: rest)) = chainBytes c ++ chainsBytes (List.take i rest) := rfl
          rw [hstep] at hlge
          simp only [List.length_append] at hlge
          omega

/-- C2: for every chain sequence within the reader's part-size limit and every
segmentation of the concatenated serialised bytes into non-empty chunks, feeding
the chunks in order to one `StreamingChainReader` yields the canonical fragment
stream `chainsItems csl` with no error, independent of the segmentation; the
assembler reconstructs exactly the original chains; `complete()` is true at the
end; and after draining any number `j` of chunks, `complete()` is true exactly
when the bytes fed so far end on a chain boundary. -/
theorem C2_chunk_invariance (mps : Nat) (csl : List BinaryChain)
    (chunks : List (List Nat))
    (hok : ∀ c ∈ csl, (∀ b ∈ c.pfx, b < ZERO_SOP_ORD) ∧ PartsFit mps c.parts)
    (hne : ∀ ch ∈ chunks, ch ≠ [])
    (hsplit : catMap id chunks = chainsBytes csl) :
    (feedAll (StreamingChainReader.new mps none none none) chunks).1 = chainsItems csl ∧
    (feedAll (StreamingChainReader.new mps none none none) chunks).2.2 = none ∧
    (processItems ⟨[], []⟩ (feedAll (StreamingChainReader.new mps none none none) chunks).1).1 = csl ∧
    (feedAll (StreamingChainReader.new mps none none none) chunks).2.1.complete = true ∧
    (∀ j, ((feedAll (StreamingChainReader.new mps none none none) (chunks.take j)).2.1.complete = true ↔ ∃ i, catMap id (chunks.take j) = chainsBytes (csl.take i))) := by
  have hq0 : get_next_part (StreamingChainReader.new mps none none none) = .ok (none, false, StreamingChainReader.new mps none none none) := rfl
  have hInv0 : RInv (StreamingChainReader.new mps none none none) :=
    ⟨rfl, fun n hn => Option.noConfusion hn⟩
  have hokCh : ∀ c ∈ csl, ChainOK mps none none none c :=
    fun c hc => ⟨(hok c hc).1, fun j _ => rfl, (hok c hc).2, rfl, rfl⟩
  obtain ⟨stale2, hfull⟩ := runChains csl mps none none none none hokCh
  have hCH := feedAll_runItems chunks (StreamingChainReader.new mps none none none)
    hInv0 hq0 hne
  have hbufc : (StreamingChainReader.new mps none none none).buffer ++ catMap id chunks = chainsBytes csl := by
    simp [StreamingChainReader.new, hsplit]
  rw [hbufc] at hCH
  have hrec : ({ StreamingChainReader.new mps none none none with buffer := chainsBytes csl } : StreamingChainReader) = cleanR mps none none none none (chainsBytes csl) := rfl
  rw [hrec, hfull] at hCH
  have herr : (feedAll (StreamingChainReader.new mps none none none) chunks).2.2 = none := by
    rw [hCH.2.1]
  have hstate : (feedAll (StreamingChainReader.new mps none none none) chunks).2.1 = cleanR mps none none none stale2 [] := by
    rw [hCH.2.2 rfl]
  refine ⟨by rw [hCH.1], herr, ?_, ?_, ?_⟩
  · rw [hCH.1]
    rw [processItems_chains csl]
  · rw [hstate]
    rfl
  · intro j
    have hPS : catMap id (chunks.take j) ++ catMap id (chunks.drop j) = chainsBytes csl := by
      rw [← catMap_append, List.take_append_drop, hsplit]
    obtain ⟨itemsJ, rPJ, hrunJ, hiffJ⟩ := runChainsPre csl mps none
      (catMap id (chunks.take j)) (catMap id (chunks.drop j)) hok hPS
    have hCHj := feedAll_runItems (chunks.take j) (StreamingChainReader.new mps none none none)
      hInv0 hq0 (fun x hx => hne x (List.mem_of_mem_take hx))
    have hrecj : ({ StreamingChainReader.new mps none none none with buffer := (StreamingChainReader.new mps none none none).buffer ++ catMap id (chunks.take j) } : StreamingChainReader) = cleanR mps none none none none (catMap id (chunks.take j)) := rfl
    rw [hrecj, hrunJ] at hCHj
    have hstatej : (feedAll (StreamingChainReader.new mps none none none) (chunks.take j)).2.1 = rPJ := by
      rw [hCHj.2.2 rfl]
    rw [hstatej]
    exact hiffJ

/-- Concrete witness for C2: the chain ⟨"A", [[0x42]]⟩ serialises to
`41 81 01 42 FF`; fed one byte per call the reader emits the canonical
fragment stream, reconstructs the chain, and is complete only at the
boundaries (0 and 5 bytes). -/
theorem C2_chunk_invariance_witness :
    (feedAll (StreamingChainReader.new 1024 none none none) [[0x41], [0x81], [0x01], [0x42], [0xFF]]).1 = chainsItems [⟨[0x41], [[0x42]]⟩] ∧
    (feedAll (StreamingChainReader.new 1024 none none none) [[0x41], [0x81], [0x01], [0x42], [0xFF]]).2.2 = none ∧
    (processItems ⟨[], []⟩ (feedAll (StreamingChainReader.new 1024 none none none) [[0x41], [0x81], [0x01], [0x42], [0xFF]]).1).1 = [⟨[0x41], [[0x42]]⟩] ∧
    (feedAll (StreamingChainReader.new 1024 none none none) [[0x41], [0x81], [0x01], [0x42], [0xFF]]).2.1.complete = true ∧
    (∀ j, ((feedAll (StreamingChainReader.new 1024 none none none) ([[0x41], [0x81], [0x01], [0x42], [0xFF]].take j)).2.1.complete = true ↔ ∃ i, catMap id ([[0x41], [0x81], [0x01], [0x42], [0xFF]].take j) = chainsBytes ([⟨[0x41], [[0x42]]⟩].take i))) :=
  C2_chunk_invariance 1024 [⟨[0x41], [[0x42]]⟩] [[0x41], [0x81], [0x01], [0x42], [0xFF]]
    (by simp only [PartsFit]; decide) (by decide) (by decide)
